import Mathlib

set_option maxRecDepth 20000

/-
Shallow embedding of the Flint procedural asset generators
(src/games/doom_fps/gen_audio.py, gen_sprites.py, gen_textures.py).

Modelling conventions:
* Real (Python float) arithmetic is modelled exactly over ℚ; the
  transcendental library function math.sin and the constant math.pi are
  external collaborators and appear as abstract parameters
  (qs : ℚ → ℚ) (qpi : ℚ) of the audio generators.
* Python's `random` module is an external collaborator: a deterministic
  state machine with seeding.  It is modelled by the abstract structure
  RNG below; `random.seed`, `random.gauss`, `random.uniform` and
  `random.randint` map to its fields.  Seeding replaces the global state;
  draws thread the state.  RNG.WF states the documented range contract of
  randint/uniform (results lie in the requested interval).
* Python int() truncates toward zero (pyInt); Python // and % are floor
  division and flooring modulus (Int.fdiv / Int.emod).
* PIL images are modelled as total functions ℕ → ℕ → pixel; only the
  points inside the fixed canvas are ever relevant.  PIL drawing
  primitives are external collaborators: rectangles are inclusive of both
  corners (PIL semantics); ellipses fill the set of integer points whose
  normalized distance to the bounding-box centre is ≤ 1; a width-w
  axis-aligned line covers w adjacent rows/columns; the diamond polygons
  of gen_tan_walkway are |dx|+|dy| ≤ 3; diagonal crack lines rasterize by
  uniform parameter stepping with rounding; the SMOOTH / SMOOTH_MORE
  filters are the documented normalized box kernels applied on the
  interior, borders kept.
* Buffers of samples are Lists of ℚ in generation order.
-/

def pyInt (q : ℚ) : ℤ := if 0 ≤ q then ⌊q⌋ else ⌈q⌉

/-- RGB pixel of a texture image (gen_textures.py); channels are integers. -/
structure Pix3 where
  r : ℤ
  g : ℤ
  b : ℤ
deriving DecidableEq, Repr

/-- RGBA pixel of a sprite image (gen_sprites.py). -/
structure Pix4 where
  r : ℤ
  g : ℤ
  b : ℤ
  a : ℤ
deriving DecidableEq, Repr

def Img (α : Type) : Type := ℕ → ℕ → α

variable {α : Type}

/-- putpixel: point update of an image. -/
def updImg (img : Img α) (x y : ℕ) (p : α) : Img α :=
  fun x' y' => if x' = x ∧ y' = y then p else img x' y'

/-- A drawing primitive: paint the colour c on all points of the mask. -/
def setWhere (mask : ℕ → ℕ → Bool) (c : α) (img : Img α) : Img α :=
  fun x y => if mask x y then c else img x y

/-- PIL draw.rectangle([x0,y0,x1,y1]): both corners inclusive. -/
def rectMask (x0 y0 x1 y1 : ℤ) (x y : ℕ) : Bool :=
  decide (x0 ≤ (x : ℤ) ∧ (x : ℤ) ≤ x1 ∧ y0 ≤ (y : ℤ) ∧ (y : ℤ) ≤ y1)

/-- PIL draw.ellipse bounding-box fill, modelled by the standard inclusion
test ((x-cx)/rx)^2 + ((y-cy)/ry)^2 ≤ 1, cross-multiplied (by 4*rx^2*ry^2)
to stay in ℤ: cx = (x0+x1)/2, rx = (x1-x0)/2, etc. -/
def ellipseMask (x0 y0 x1 y1 : ℤ) (x y : ℕ) : Bool :=
  let dx : ℤ := 2 * (x : ℤ) - (x0 + x1)
  let dy : ℤ := 2 * (y : ℤ) - (y0 + y1)
  let wx : ℤ := x1 - x0
  let wy : ℤ := y1 - y0
  decide (dx ^ 2 * wy ^ 2 + dy ^ 2 * wx ^ 2 ≤ wx ^ 2 * wy ^ 2)

/-- Outline ring of an ellipse: in the ellipse but not in the one shrunk by 1. -/
def ellipseOutlineMask (x0 y0 x1 y1 : ℤ) (x y : ℕ) : Bool :=
  ellipseMask x0 y0 x1 y1 x y && !ellipseMask (x0 + 1) (y0 + 1) (x1 - 1) (y1 - 1) x y

/-- PIL draw.rectangle(..., outline=..., width=w): band of width w just
inside the rectangle border. -/
def rectOutlineMask (x0 y0 x1 y1 w : ℤ) (x y : ℕ) : Bool :=
  rectMask x0 y0 x1 y1 x y &&
    decide ((x : ℤ) < x0 + w ∨ x1 - w < (x : ℤ) ∨ (y : ℤ) < y0 + w ∨ y1 - w < (y : ℤ))

/-- Integer points of a rasterized segment, by uniform stepping: n = the
chebyshev length, point k adds round(delta*k/n) to each coordinate (the
rounding ⌊p/q + 1/2⌋ is written with floor division to stay in ℤ). -/
def segPoints (x0 y0 x1 y1 : ℤ) : List (ℤ × ℤ) :=
  let n : ℕ := max (x1 - x0).natAbs (y1 - y0).natAbs
  (List.range (n + 1)).map (fun k =>
    (x0 + (2 * (x1 - x0) * (k : ℤ) + (n : ℤ)).fdiv (2 * (n : ℤ)),
     y0 + (2 * (y1 - y0) * (k : ℤ) + (n : ℤ)).fdiv (2 * (n : ℤ))))

/-- PIL draw.line between two points (width 1), modelled by segPoints. -/
def segMask (x0 y0 x1 y1 : ℤ) (x y : ℕ) : Bool :=
  decide (((x : ℤ), (y : ℤ)) ∈ segPoints x0 y0 x1 y1)

/-- Filled diamond polygon of gen_tan_walkway: vertices (cx,cy±3),(cx±3,cy). -/
def diamondMask (cx cy : ℤ) (x y : ℕ) : Bool :=
  decide (((x : ℤ) - cx).natAbs + ((y : ℤ) - cy).natAbs ≤ 3)

/-- Outline of the same diamond polygon. -/
def diamondOutlineMask (cx cy : ℤ) (x y : ℕ) : Bool :=
  decide (((x : ℤ) - cx).natAbs + ((y : ℤ) - cy).natAbs = 3)

/-- The external pseudo-random generator (Python random): an abstract
deterministic state machine.  seed replaces the state; gauss/uniform/randint
return a value and the advanced state. -/
structure RNG where
  State : Type
  seed : ℕ → State
  gauss : State → ℚ → ℚ → ℚ × State
  uniform : State → ℚ → ℚ → ℚ × State
  randint : State → ℤ → ℤ → ℤ × State

/-- Documented range contract of the random library: randint(a,b) and
uniform(a,b) return values inside [a,b]. -/
def RNG.WF (R : RNG) : Prop :=
  (∀ s a b, a ≤ b → a ≤ (R.randint s a b).1 ∧ (R.randint s a b).1 ≤ b) ∧
  (∀ s a b, a ≤ b → a ≤ (R.uniform s a b).1 ∧ (R.uniform s a b).1 ≤ b)

/-- Inclusive integer range a..b as a list (Python range(a, b+1)). -/
def rangeL (a b : ℕ) : List ℕ := (List.range (b + 1 - a)).map (a + ·)

/-- Row-major pixel traversal: for y in ys: for x in xs. -/
def coordsYX (ys xs : List ℕ) : List (ℕ × ℕ) :=
  ys.flatMap (fun y => xs.map (fun x => (x, y)))

/-- Column-major pixel traversal: for x in xs: for y in ys. -/
def coordsXY (xs ys : List ℕ) : List (ℕ × ℕ) :=
  xs.flatMap (fun x => ys.map (fun y => (x, y)))

/-- A per-pixel mutation pass: visit the coordinates in order, read the
current pixel, write the step's result, thread the RNG state. -/
def applyPerPixel (σ : Type) (step : ℕ × ℕ → σ → α → α × σ)
    (coords : List (ℕ × ℕ)) (img : Img α) (s : σ) : Img α × σ :=
  coords.foldl (fun acc c =>
    let p := step c acc.2 (acc.1 c.1 c.2)
    (updImg acc.1 c.1 c.2 p.1, p.2)) (img, s)

/-! Audio (gen_audio.py).  SAMPLE_RATE = 22050. -/

/-- Peak absolute value of a buffer: max(abs(s) for s in samples), as a
fold starting at 0 (all peaks are of nonempty nonnegative data, so the
extra 0 is absorbed). -/
def listPeak (l : List ℚ) : ℚ := l.foldl (fun m s => max m |s|) 0

/-- Normalization step shared by both audio generators: scale every sample
by target/peak, skipped when the peak is not positive. -/
def normalizeTo (target : ℚ) (l : List ℚ) : List ℚ :=
  if 0 < listPeak l then l.map (fun s => s / listPeak l * target) else l

/-- write_wav's clamp of a sample to [-1, 1]. -/
def clamp1 (s : ℚ) : ℚ := max (-1) (min 1 s)

/-- write_wav: clamp each sample and quantize by int(clamped * 32767). -/
def write_wav (samples : List ℚ) : List ℤ :=
  samples.map (fun s => pyInt (clamp1 s * 32767))

/-- Brown-noise layer of gen_nukage_sizzle: per sample the code runs
brown += gauss(0, 0.02); brown *= 0.998; samples[i] += brown * 0.4
on the zero-filled buffer.  Arguments: state, current brown value,
remaining sample count. -/
def brownLayer (R : RNG) : R.State → ℚ → ℕ → List ℚ
  | _, _, 0 => []
  | s, brown, n + 1 =>
    let d := R.gauss s 0 (1/50)
    let b := (brown + d.1) * (499/500)
    b * (2/5) :: brownLayer R d.2 b n

/-- RNG state after the brown-noise layer (one gauss draw per sample). -/
def brownEnd (R : RNG) : R.State → ℕ → R.State
  | s, 0 => s
  | s, n + 1 => brownEnd R (R.gauss s 0 (1/50)).2 n

/-- One bubble-pop event of gen_nukage_sizzle layer 2. -/
structure PopEvent where
  start : ℤ
  len : ℤ
  freq : ℚ
  vol : ℚ
deriving DecidableEq, Repr

/-- The while-loop of layer 2: t += uniform(0.08, 0.3); pop_start =
int(t*RATE); pop_len = int(uniform(0.01, 0.04)*RATE); pop_freq =
uniform(300, 800); pop_vol = uniform(0.05, 0.15).  The loop runs while
t < 3.0; fuel bounds the recursion (for a WF RNG t grows by at least 0.08
per iteration, so at most 38 iterations happen and the fuel of 1000 used
below is never exhausted). -/
def popsLoop (R : RNG) : ℕ → ℚ → R.State → List PopEvent × R.State
  | 0, _, s => ([], s)
  | fuel + 1, t, s =>
    if t < 3 then
      let dt := R.uniform s (2/25) (3/10)
      let t' := t + dt.1
      let dl := R.uniform dt.2 (1/100) (1/25)
      let df := R.uniform dl.2 300 800
      let dv := R.uniform df.2 (1/20) (3/20)
      let rest := popsLoop R fuel t' dv.2
      (⟨pyInt (t' * 22050), pyInt (dl.1 * 22050), df.1, dv.1⟩ :: rest.1, rest.2)
    else ([], s)

/-- Additive contribution of one pop at buffer index idx:
sin(2*pi*freq*j/RATE) * sin(pi*j/pop_len) * vol for j = idx - start when
0 ≤ j < len, else 0 (the code writes samples[start+j] for j in
range(pop_len) when the index is inside the buffer). -/
def popContrib (qs : ℚ → ℚ) (qpi : ℚ) (ev : PopEvent) (idx : ℕ) : ℚ :=
  let j : ℤ := (idx : ℤ) - ev.start
  if 0 ≤ j ∧ j < ev.len then
    qs (2 * qpi * ev.freq * (j : ℚ) / 22050) * qs (qpi * (j : ℚ) / (ev.len : ℚ)) * ev.vol
  else 0

/-- Add all pop events into the buffer. -/
def applyPops (qs : ℚ → ℚ) (qpi : ℚ) (evs : List PopEvent) (l : List ℚ) : List ℚ :=
  evs.foldl (fun acc ev => acc.mapIdx (fun i v => v + popContrib qs qpi ev i)) l

/-- High-frequency fizz layer: per sample i the code draws
fizz = gauss(0, 0.03), multiplies by sin(2*pi*4000*i/RATE) * 0.5 and adds
it to the buffer.  Arguments: state, current index, remaining count. -/
def fizzFrom (R : RNG) (qs : ℚ → ℚ) (qpi : ℚ) : R.State → ℕ → ℕ → List ℚ
  | _, _, 0 => []
  | s, i, n + 1 =>
    let d := R.gauss s 0 (3/100)
    d.1 * (qs (2 * qpi * 4000 * (i : ℚ) / 22050) * (1/2)) :: fizzFrom R qs qpi d.2 (i + 1) n

/-- n_samples = int(SAMPLE_RATE * 3.0) of gen_nukage_sizzle. -/
def nukN : ℕ := (pyInt ((22050 : ℚ) * 3)).toNat

/-- fade_len = int(0.05 * SAMPLE_RATE) of gen_nukage_sizzle. -/
def nukFade : ℕ := (pyInt ((1/20 : ℚ) * 22050)).toNat

/-- Crossfade-and-trim of gen_nukage_sizzle: for i in range(fade):
samples[i] = samples[i]*(i/fade) + samples[n-fade+i]*(1-i/fade), done by
in-place updates in increasing i, then samples = samples[:n-fade]. -/
def crossfadeTrim (n fade : ℕ) (l : List ℚ) : List ℚ :=
  ((List.range fade).foldl (fun acc i =>
    acc.set i (acc.getD i 0 * ((i : ℚ) / (fade : ℚ)) +
      acc.getD (n - fade + i) 0 * (1 - (i : ℚ) / (fade : ℚ)))) l).take (n - fade)

/-- The three additive layers of gen_nukage_sizzle mixed into one buffer,
with the RNG seeded at 1234 and threaded through layer 1, the pops loop
and layer 3 in program order. -/
def nukMix (R : RNG) (qs : ℚ → ℚ) (qpi : ℚ) : List ℚ :=
  let s0 := R.seed 1234
  let layer1 := brownLayer R s0 0 nukN
  let s1 := brownEnd R s0 nukN
  let pops := popsLoop R 1000 0 s1
  let withPops := applyPops qs qpi pops.1 layer1
  let fizz := fizzFrom R qs qpi pops.2 0 nukN
  List.zipWith (· + ·) withPops fizz

/-- Buffer of gen_nukage_sizzle just before normalization. -/
def nukagePre (R : RNG) (qs : ℚ → ℚ) (qpi : ℚ) : List ℚ :=
  crossfadeTrim nukN nukFade (nukMix R qs qpi)

/-- gen_nukage_sizzle: the sample buffer handed to write_wav.  The ambient
RNG state s is the global random state on entry; the routine immediately
re-seeds (random.seed(1234)), so s is unused. -/
def gen_nukage_sizzle (R : RNG) (qs : ℚ → ℚ) (qpi : ℚ) (_ : R.State) : List ℚ :=
  normalizeTo (7/10) (nukagePre R qs qpi)

/-- n_samples = int(SAMPLE_RATE * 2.0) of gen_computer_hum. -/
def humN : ℕ := (pyInt ((22050 : ℚ) * 2)).toNat

/-- Sample loop of gen_computer_hum: at index i, t = i/RATE,
s = sin(2*pi*60*t)*0.5 + sin(2*pi*120*t)*0.25 + sin(2*pi*180*t)*0.12,
s *= 1 + 0.08*sin(2*pi*0.5*t), s += gauss(0, 0.005).  The gauss draw uses
the ambient (never re-seeded) RNG state. -/
def humList (R : RNG) (qs : ℚ → ℚ) (qpi : ℚ) : R.State → ℕ → ℕ → List ℚ
  | _, _, 0 => []
  | s, i, n + 1 =>
    let t : ℚ := (i : ℚ) / 22050
    let base := qs (2 * qpi * 60 * t) * (1/2) + qs (2 * qpi * 120 * t) * (1/4) +
      qs (2 * qpi * 180 * t) * (3/25)
    let warble := 1 + (2/25) * qs (2 * qpi * (1/2) * t)
    let d := R.gauss s 0 (1/200)
    (base * warble + d.1) :: humList R qs qpi d.2 (i + 1) n

/-- RNG state after gen_computer_hum's loop (one gauss draw per sample). -/
def humEnd (R : RNG) : R.State → ℕ → R.State
  | s, 0 => s
  | s, n + 1 => humEnd R (R.gauss s 0 (1/200)).2 n

/-- Buffer of gen_computer_hum before normalization, from ambient state s. -/
def humPre (R : RNG) (qs : ℚ → ℚ) (qpi : ℚ) (s : R.State) : List ℚ :=
  humList R qs qpi s 0 humN

/-- gen_computer_hum: the sample buffer handed to write_wav.  Unlike
gen_nukage_sizzle it never calls random.seed, so the output depends on the
ambient RNG state s. -/
def gen_computer_hum (R : RNG) (qs : ℚ → ℚ) (qpi : ℚ) (s : R.State) : List ℚ :=
  normalizeTo (3/5) (humPre R qs qpi s)

/-- Global RNG state after a run of gen_computer_hum. -/
def gen_computer_hum_post (R : RNG) (s : R.State) : R.State :=
  humEnd R s humN

/-! Sprites (gen_sprites.py). -/

/-- Fully transparent RGBA canvas (Image.new with (0,0,0,0)). -/
def blank4 : Img Pix4 := fun _ _ => ⟨0, 0, 0, 0⟩

/-- Shading step of gen_barrel: only when alpha > 0, add
shade = int(20*(1 - d^2)), d = |x - 15.5| / 11.5, to r and g and
shade // 2 to b, each capped at 255.  The body rectangle is
[4, 27] x [6, 44], so 15.5 = (4+27)/2 and 11.5 = (27-4)/2. -/
def barrelShadeStep (c : ℕ × ℕ) (s : Unit) (p : Pix4) : Pix4 × Unit :=
  if 0 < p.a then
    let cd : ℚ := |(c.1 : ℚ) - (4 + 27) / 2| / ((27 - 4) / 2)
    let shade : ℤ := pyInt (20 * (1 - cd * cd))
    (⟨min 255 (p.r + shade), min 255 (p.g + shade), min 255 (p.b + shade.fdiv 2), p.a⟩, s)
  else (p, s)

/-- Coordinates of the barrel shading loops: for x in range(4, 28):
for y in range(6, 45). -/
def barrelShadeCoords : List (ℕ × ℕ) := coordsXY (rangeL 4 27) (rangeL 6 44)

/-- Per-pixel noise step shared by gen_barrel (mag 8) and gen_tech_column
(mag 5): only when alpha > 0, draw v = randint(-mag, mag) and add it to
all three colour channels, clamped to [0, 255]; alpha is kept. -/
def spriteNoiseStep (R : RNG) (mag : ℤ) (_ : ℕ × ℕ) (s : R.State) (p : Pix4) :
    Pix4 × R.State :=
  if 0 < p.a then
    let d := R.randint s (-mag) mag
    (⟨max 0 (min 255 (p.r + d.1)), max 0 (min 255 (p.g + d.1)),
      max 0 (min 255 (p.b + d.1)), p.a⟩, d.2)
  else (p, s)

/-- gen_barrel's image just before the noise pass: body rectangle,
shading, four metal bands, the two glow rectangles, the two glow
ellipses and the top cap, in program order. -/
def barrelPreNoise : Img Pix4 :=
  setWhere (ellipseOutlineMask 5 3 26 9) ⟨70, 60, 45, 255⟩
    (setWhere (ellipseMask 5 3 26 9) ⟨100, 85, 65, 255⟩
      (setWhere (ellipseMask 14 24 16 26) ⟨80, 200, 50, 255⟩
        (setWhere (ellipseMask 12 22 18 28) ⟨30, 120, 20, 255⟩
          (setWhere (rectMask 11 22 19 28) ⟨60, 180, 40, 255⟩
            (setWhere (rectMask 9 20 21 30) ⟨40, 140, 30, 255⟩
              ([8, 16, 34, 42].foldl
                (fun im y => setWhere (rectMask 4 y 27 (y + 1)) ⟨70, 65, 55, 255⟩ im)
                ((applyPerPixel Unit barrelShadeStep barrelShadeCoords
                  (setWhere (rectMask 4 6 27 44) ⟨90, 75, 55, 255⟩ blank4) ()).1)))))))

/-- gen_barrel (32x48): drawing and shading followed by the per-pixel
noise pass seeded at 111.  The ambient RNG state is unused because the
routine re-seeds before its only draws. -/
def gen_barrel (R : RNG) (_ : R.State) : Img Pix4 :=
  (applyPerPixel R.State (spriteNoiseStep R 8)
    (coordsYX (List.range 48) (List.range 32)) barrelPreNoise (R.seed 111)).1

/-- Text-segment loop of gen_computer_panel: for each segment,
x_start = 9 + randint(0, 20), x_end = min(39, x_start + randint(3, 10)),
then draw the rectangle [x_start, y, x_end, y+2] in the text colour. -/
def panelSegs (R : RNG) : ℕ → ℤ → Img Pix4 → R.State → Img Pix4 × R.State
  | 0, _, img, s => (img, s)
  | k + 1, y, img, s =>
    let dxs := R.randint s 0 20
    let xs := 9 + dxs.1
    let dln := R.randint dxs.2 3 10
    let xe := min 39 (xs + dln.1)
    panelSegs R k y (setWhere (rectMask xs y xe (y + 2)) ⟨50, 200, 150, 255⟩ img) dln.2

/-- Text-row loop of gen_computer_panel: for row in range(5), y = 10+5*row,
draw line_len = randint(8, 28) (value unused by the code), then
randint(2, 5) segments. -/
def panelRows (R : RNG) : List ℕ → Img Pix4 → R.State → Img Pix4 × R.State
  | [], img, s => (img, s)
  | row :: rest, img, s =>
    let y : ℤ := 10 + (row : ℤ) * 5
    let dLen := R.randint s 8 28
    let dSeg := R.randint dLen.2 2 5
    let seg := panelSegs R dSeg.1.toNat y img dSeg.2
    panelRows R rest seg.1 seg.2

/-- gen_computer_panel's image before the random text rows: casing,
screen, bezel highlights and the 15 scan lines (y = 8, 10, ..., 36). -/
def panelBase : Img Pix4 :=
  ([8, 10, 12, 14, 16, 18, 20, 22, 24, 26, 28, 30, 32, 34, 36] : List ℤ).foldl
    (fun im k => setWhere (rectMask 8 k 39 k) ⟨20, 55, 65, 255⟩ im)
    (setWhere (rectMask 6 6 7 38) ⟨25, 55, 65, 255⟩
      (setWhere (rectMask 6 6 41 7) ⟨30, 60, 70, 255⟩
        (setWhere (rectMask 6 6 41 38) ⟨15, 40, 50, 255⟩
          (setWhere (rectMask 3 3 44 44) ⟨60, 60, 65, 255⟩
            (setWhere (rectMask 2 2 45 45) ⟨50, 50, 55, 255⟩ blank4)))))

/-- gen_computer_panel (48x48): base, the text rows with the RNG seeded at
222, then cursor, button and the two LED ellipses.  There is no noise pass
and no shading pass.  The ambient RNG state is unused (the routine
re-seeds before its only draws). -/
def gen_computer_panel (R : RNG) (_ : R.State) : Img Pix4 :=
  setWhere (ellipseMask 33 40 37 44) ⟨30, 200, 60, 255⟩
    (setWhere (ellipseMask 38 40 42 44) ⟨200, 50, 30, 255⟩
      (setWhere (rectMask 8 40 14 43) ⟨40, 40, 45, 255⟩
        (setWhere (rectMask 9 33 12 35) ⟨100, 255, 200, 255⟩
          (panelRows R [0, 1, 2, 3, 4] panelBase (R.seed 222)).1)))

/-- Shading step of gen_tech_column: only when alpha > 0, add
shade = int(25*(1 - d^2)), d = |x - 11.5| / 7.5, to all three colour
channels, capped at 255 (column body [4, 19], centre (4+19)/2). -/
def columnShadeStep (c : ℕ × ℕ) (s : Unit) (p : Pix4) : Pix4 × Unit :=
  if 0 < p.a then
    let d : ℚ := |(c.1 : ℚ) - (4 + 19) / 2| / ((19 - 4) / 2)
    let shade : ℤ := pyInt (25 * (1 - d * d))
    (⟨min 255 (p.r + shade), min 255 (p.g + shade), min 255 (p.b + shade), p.a⟩, s)
  else (p, s)

/-- Coordinates of the column shading loops: for y in range(2, 62):
for x in range(4, 20). -/
def columnShadeCoords : List (ℕ × ℕ) := coordsYX (rangeL 2 61) (rangeL 4 19)

/-- Warning-stripe mask of gen_tech_column (gold cells): rows 32..35,
columns 5..18, where (x + (y - 32)) % 4 < 2. -/
def stripeGoldMask (x y : ℕ) : Bool :=
  decide (32 ≤ y ∧ y ≤ 35 ∧ 5 ≤ x ∧ x ≤ 18 ∧ (x + (y - 32)) % 4 < 2)

/-- Warning-stripe mask of gen_tech_column (dark cells). -/
def stripeDarkMask (x y : ℕ) : Bool :=
  decide (32 ≤ y ∧ y ≤ 35 ∧ 5 ≤ x ∧ x ≤ 18 ∧ ¬(x + (y - 32)) % 4 < 2)

/-- gen_tech_column's image before the noise pass: body, shading, the five
band pairs, base and capital, and the warning stripes, in program order. -/
def columnPreNoise : Img Pix4 :=
  setWhere stripeDarkMask ⟨40, 40, 45, 255⟩
    (setWhere stripeGoldMask ⟨180, 150, 30, 255⟩
      (setWhere (rectMask 2 60 21 63) ⟨80, 80, 85, 255⟩
        (setWhere (rectMask 2 0 21 4) ⟨80, 80, 85, 255⟩
          ([4, 15, 30, 45, 59].foldl
            (fun im y =>
              setWhere (rectMask 4 (y + 3) 19 (y + 3)) ⟨120, 120, 125, 255⟩
                (setWhere (rectMask 4 y 19 (y + 2)) ⟨75, 75, 80, 255⟩ im))
            ((applyPerPixel Unit columnShadeStep columnShadeCoords
              (setWhere (rectMask 4 2 19 61) ⟨100, 100, 105, 255⟩ blank4) ()).1)))))

/-- gen_tech_column (24x64): drawing and shading followed by the noise
pass (magnitude 5) seeded at 333. -/
def gen_tech_column (R : RNG) (_ : R.State) : Img Pix4 :=
  (applyPerPixel R.State (spriteNoiseStep R 5)
    (coordsYX (List.range 64) (List.range 24)) columnPreNoise (R.seed 333)).1

/-! Textures (gen_textures.py).  SIZE = 128, all images RGB. -/

/-- Solid RGB fill (Image.new with a colour). -/
def fill3 (c : Pix3) : Img Pix3 := fun _ _ => c

/-- All-pixel traversal of a 128x128 texture in program order
(for y in range(SIZE): for x in range(SIZE)). -/
def texCoords : List (ℕ × ℕ) := coordsYX (List.range 128) (List.range 128)

/-- Mortar colour of gen_brown_brick. -/
def brickMortar : Pix3 := ⟨60, 40, 25⟩

/-- Mortar grid of gen_brown_brick: for row in range(9), a horizontal
mortar rectangle at y = 16*row and, at offset 16 on odd rows, vertical
mortar rectangles at x = 32*col + offset for col in range(-1, 6). -/
def brickMortarImg : Img Pix3 :=
  (List.range 9).foldl
    (fun im row =>
      let y : ℤ := (row : ℤ) * 16
      let off : ℤ := if row % 2 = 1 then 16 else 0
      (List.range 7).foldl
        (fun im2 k =>
          let x : ℤ := ((k : ℤ) - 1) * 32 + off
          setWhere (rectMask x y (x + 1) (y + 16)) brickMortar im2)
        (setWhere (rectMask 0 y 128 (y + 1)) brickMortar im))
    (fill3 ⟨120, 70, 40⟩)

/-- Noise step of gen_brown_brick: on non-mortar pixels, re-seed from the
brick index and draw bv = randint(-20, 20), re-seed from the absolute
pixel index and draw pv = randint(-8, 8), then add bv+pv, bv//2+pv,
bv//3+pv to r, g, b, clamped to [0, 255]. -/
def brickNoiseStep (R : RNG) (c : ℕ × ℕ) (s : R.State) (p : Pix3) : Pix3 × R.State :=
  if p ≠ brickMortar then
    let bv := R.randint (R.seed ((c.2 / 16) * 10 + c.1 / 32 + 101)) (-20) 20
    let pv := R.randint (R.seed (c.2 * 128 + c.1 + 42)) (-8) 8
    (⟨max 0 (min 255 (p.r + bv.1 + pv.1)),
      max 0 (min 255 (p.g + bv.1.fdiv 2 + pv.1)),
      max 0 (min 255 (p.b + bv.1.fdiv 3 + pv.1))⟩, pv.2)
  else (p, s)

/-- gen_brown_brick: mortar grid then the dual-seeded noise pass.  The
noise pass starts from the ambient RNG state s, but every draw re-seeds
first. -/
def gen_brown_brick (R : RNG) (s : R.State) : Img Pix3 :=
  (applyPerPixel R.State (brickNoiseStep R) texCoords brickMortarImg s).1

/-- Convolution kernel entry list of ImageFilter.SMOOTH: 3x3 weights
1,1,1 / 1,5,1 / 1,1,1 with divisor 13. -/
def smoothKer : List (ℤ × ℤ × ℤ) :=
  [(-1, -1, 1), (0, -1, 1), (1, -1, 1),
   (-1, 0, 1), (0, 0, 5), (1, 0, 1),
   (-1, 1, 1), (0, 1, 1), (1, 1, 1)]

/-- Convolution kernel entry list of ImageFilter.SMOOTH_MORE: 5x5 weights
with centre 44, ring 5, border 1, divisor 100. -/
def smoothMoreKer : List (ℤ × ℤ × ℤ) :=
  [(-2, -2, 1), (-1, -2, 1), (0, -2, 1), (1, -2, 1), (2, -2, 1),
   (-2, -1, 1), (-1, -1, 5), (0, -1, 5), (1, -1, 5), (2, -1, 1),
   (-2, 0, 1), (-1, 0, 5), (0, 0, 44), (1, 0, 5), (2, 0, 1),
   (-2, 1, 1), (-1, 1, 5), (0, 1, 5), (1, 1, 5), (2, 1, 1),
   (-2, 2, 1), (-1, 2, 1), (0, 2, 1), (1, 2, 1), (2, 2, 1)]

/-- Weighted channel sum of a kernel around (x, y). -/
def kerSum (ker : List (ℤ × ℤ × ℤ)) (f : Pix3 → ℤ) (img : Img Pix3) (x y : ℕ) : ℤ :=
  ker.foldl (fun t e => t + e.2.2 * f (img ((x : ℤ) + e.1).toNat ((y : ℤ) + e.2.1).toNat)) 0

/-- PIL kernel filter: weighted mean on the interior (margin m kept as the
original, PIL's border behaviour). -/
def blurWith (ker : List (ℤ × ℤ × ℤ)) (den : ℤ) (m : ℕ) (img : Img Pix3) : Img Pix3 :=
  fun x y =>
    if m ≤ x ∧ x + m < 128 ∧ m ≤ y ∧ y + m < 128 then
      ⟨(kerSum ker Pix3.r img x y).fdiv den,
       (kerSum ker Pix3.g img x y).fdiv den,
       (kerSum ker Pix3.b img x y).fdiv den⟩
    else img x y

/-- Noise step of gen_brown_stone_floor: v = randint(-20, 20), add v to r
and g and int(v*0.6) to b, clamped. -/
def stoneNoiseStep (R : RNG) (_ : ℕ × ℕ) (s : R.State) (p : Pix3) : Pix3 × R.State :=
  let d := R.randint s (-20) 20
  (⟨max 0 (min 255 (p.r + d.1)), max 0 (min 255 (p.g + d.1)),
    max 0 (min 255 (p.b + pyInt ((d.1 : ℚ) * (3/5))))⟩, d.2)

/-- 32-px grid lines shared by gen_brown_stone_floor and gen_green_stone:
for i in range(5), a vertical and a horizontal width-1 line at 32*i. -/
def gridLines32 (c : Pix3) (img : Img Pix3) : Img Pix3 :=
  (List.range 5).foldl
    (fun im i =>
      setWhere (rectMask 0 ((i : ℤ) * 32) 128 ((i : ℤ) * 32))
        c (setWhere (rectMask ((i : ℤ) * 32) 0 ((i : ℤ) * 32) 128) c im))
    img

/-- gen_brown_stone_floor: base, sequential noise seeded at 202, grid
lines, SMOOTH filter. -/
def gen_brown_stone_floor (R : RNG) (_ : R.State) : Img Pix3 :=
  blurWith smoothKer 13 1
    (gridLines32 ⟨70, 45, 25⟩
      ((applyPerPixel R.State (stoneNoiseStep R) texCoords
        (fill3 ⟨100, 65, 35⟩) (R.seed 202)).1))

/-- Uniform sequential noise step used by gray_concrete (mag 15),
dark_teal_metal (6), blue_tech_panel (5), tech_floor (4) and
ceiling_panel (8): v = randint(-mag, mag) added to all channels, clamped. -/
def uniNoiseStep (R : RNG) (mag : ℤ) (_ : ℕ × ℕ) (s : R.State) (p : Pix3) : Pix3 × R.State :=
  let d := R.randint s (-mag) mag
  (⟨max 0 (min 255 (p.r + d.1)), max 0 (min 255 (p.g + d.1)),
    max 0 (min 255 (p.b + d.1))⟩, d.2)

/-- Crack random walk of gen_gray_concrete: per step draw dx in [dxa, dxb]
and dy in [1, 3], draw the segment between the wrapped previous and next
points, and continue from the unwrapped next point. -/
def crackWalk (R : RNG) (dxa dxb : ℤ) : ℕ → ℤ → ℤ → Img Pix3 → R.State → Img Pix3 × R.State
  | 0, _, _, img, s => (img, s)
  | k + 1, cx, cy, img, s =>
    let dx := R.randint s dxa dxb
    let dy := R.randint dx.2 1 3
    let nx := cx + dx.1
    let ny := cy + dy.1
    crackWalk R dxa dxb k nx ny
      (setWhere (segMask (cx.emod 128) (cy.emod 128) (nx.emod 128) (ny.emod 128))
        ⟨75, 75, 72⟩ img) dy.2

/-- gen_gray_concrete: base, sequential noise (mag 15) seeded at 303, the
two crack walks seeded at 304 (60 steps from (20,0) with dx in [-1,2],
then 40 steps from (90,30) with dx in [-2,1]), SMOOTH_MORE filter. -/
def gen_gray_concrete (R : RNG) (_ : R.State) : Img Pix3 :=
  blurWith smoothMoreKer 100 2
    (let noisy := (applyPerPixel R.State (uniNoiseStep R 15) texCoords
      (fill3 ⟨110, 110, 105⟩) (R.seed 303)).1
     let w1 := crackWalk R (-1) 2 60 20 0 noisy (R.seed 304)
     (crackWalk R (-2) 1 40 90 30 w1.1 w1.2).1)

/-- Groove colour of gen_gray_tile_floor. -/
def tileGroove : Pix3 := ⟨65, 68, 70⟩

/-- Tile grooves of gen_gray_tile_floor: for i in range(5), a vertical and
a horizontal width-2 line at 32*i. -/
def tileGrooveImg : Img Pix3 :=
  (List.range 5).foldl
    (fun im i =>
      setWhere (rectMask 0 ((i : ℤ) * 32) 128 ((i : ℤ) * 32 + 1)) tileGroove
        (setWhere (rectMask ((i : ℤ) * 32) 0 ((i : ℤ) * 32 + 1) 128) tileGroove im))
    (fill3 ⟨95, 100, 100⟩)

/-- Noise step of gen_gray_tile_floor: on pixels with |r - 65| > 5,
re-seed from the tile index and draw tv = randint(-8, 8), re-seed from the
absolute pixel index and draw v = randint(-10, 10), then add v+tv to all
channels, clamped. -/
def tileNoiseStep (R : RNG) (c : ℕ × ℕ) (s : R.State) (p : Pix3) : Pix3 × R.State :=
  if 5 < |p.r - 65| then
    let tv := R.randint (R.seed ((c.2 / 32) * 4 + c.1 / 32 + 404)) (-8) 8
    let v := R.randint (R.seed (c.2 * 128 + c.1 + 405)) (-10) 10
    (⟨max 0 (min 255 (p.r + v.1 + tv.1)), max 0 (min 255 (p.g + v.1 + tv.1)),
      max 0 (min 255 (p.b + v.1 + tv.1))⟩, v.2)
  else (p, s)

/-- gen_gray_tile_floor: grooves then the dual-seeded noise pass, started
from the ambient RNG state s. -/
def gen_gray_tile_floor (R : RNG) (s : R.State) : Img Pix3 :=
  (applyPerPixel R.State (tileNoiseStep R) texCoords tileGrooveImg s).1

/-- Plate seams and rivets of gen_dark_teal_metal: for y in [0,32,64,96] a
width-2 dark line and a width-1 highlight line below it; rivet dot pairs
at the 16-offset 32-grid. -/
def tealPlate : Img Pix3 :=
  ([16, 48, 80, 112] : List ℤ).foldl
    (fun im ry =>
      ([16, 48, 80, 112] : List ℤ).foldl
        (fun im2 rx =>
          setWhere (ellipseMask (rx - 1) (ry - 1) (rx + 1) (ry + 1)) ⟨45, 90, 78⟩
            (setWhere (ellipseMask (rx - 2) (ry - 2) (rx + 2) (ry + 2)) ⟨28, 60, 52⟩ im2))
        im)
    (([0, 32, 64, 96] : List ℤ).foldl
      (fun im y =>
        setWhere (rectMask 0 (y + 1) 128 (y + 1)) ⟨50, 95, 82⟩
          (setWhere (rectMask 0 y 128 (y + 1)) ⟨25, 55, 48⟩ im))
      (fill3 ⟨35, 75, 65⟩))

/-- gen_dark_teal_metal: plate pattern then sequential noise (mag 6)
seeded at 505. -/
def gen_dark_teal_metal (R : RNG) (_ : R.State) : Img Pix3 :=
  (applyPerPixel R.State (uniNoiseStep R 6) texCoords tealPlate (R.seed 505)).1

/-- Noise step of gen_tan_walkway: v = randint(-10, 10), add v to r and g
and int(v*0.5) to b, clamped. -/
def walkNoiseStep (R : RNG) (_ : ℕ × ℕ) (s : R.State) (p : Pix3) : Pix3 × R.State :=
  let d := R.randint s (-10) 10
  (⟨max 0 (min 255 (p.r + d.1)), max 0 (min 255 (p.g + d.1)),
    max 0 (min 255 (p.b + pyInt ((d.1 : ℚ) * (1/2))))⟩, d.2)

/-- Diamond motif of gen_tan_walkway: for row and col in range(9), the
filled then outlined diamond at cx = (16*col + 8*(row%2)) % 128,
cy = (16*row) % 128. -/
def walkDiamonds : Img Pix3 :=
  (coordsYX (List.range 9) (List.range 9)).foldl
    (fun im c =>
      let cx : ℤ := ((c.1 * 16 + (if c.2 % 2 = 1 then 8 else 0)) % 128 : ℕ)
      let cy : ℤ := ((c.2 * 16) % 128 : ℕ)
      setWhere (diamondOutlineMask cx cy) ⟨120, 98, 60⟩
        (setWhere (diamondMask cx cy) ⟨155, 128, 80⟩ im))
    (fill3 ⟨140, 115, 70⟩)

/-- gen_tan_walkway: diamonds then sequential noise seeded at 606. -/
def gen_tan_walkway (R : RNG) (_ : R.State) : Img Pix3 :=
  (applyPerPixel R.State (walkNoiseStep R) texCoords walkDiamonds (R.seed 606)).1

/-- Circuit pattern of gen_blue_tech_panel: border outlines, horizontal
circuit lines with node squares at x in [24, 64, 104] (all < 120), and two
vertical circuit lines. -/
def bluePanelImg : Img Pix3 :=
  ([32, 96] : List ℤ).foldl
    (fun im x => setWhere (rectMask x 8 x 120) ⟨45, 50, 80⟩ im)
    (([24, 48, 72, 96] : List ℤ).foldl
      (fun im y =>
        ([24, 64, 104] : List ℤ).foldl
          (fun im2 x =>
            if x < 120 then
              setWhere (rectMask (x - 2) (y - 2) (x + 2) (y + 2)) ⟨70, 80, 130⟩ im2
            else im2)
          (setWhere (rectMask 8 y 120 y) ⟨45, 50, 80⟩ im))
      (setWhere (rectOutlineMask 3 3 124 124 1) ⟨70, 78, 120⟩
        (setWhere (rectOutlineMask 0 0 127 127 3) ⟨40, 45, 75⟩
          (fill3 ⟨55, 60, 95⟩))))

/-- gen_blue_tech_panel: circuit pattern then sequential noise (mag 5)
seeded at 707. -/
def gen_blue_tech_panel (R : RNG) (_ : R.State) : Img Pix3 :=
  (applyPerPixel R.State (uniNoiseStep R 5) texCoords bluePanelImg (R.seed 707)).1

/-- Grate cells and rivets of gen_tech_floor: for row and col in range(8),
a double-inset cell; then centre rivet squares. -/
def techFloorImg : Img Pix3 :=
  (coordsYX (List.range 8) (List.range 8)).foldl
    (fun im c =>
      let cx : ℤ := (c.1 : ℤ) * 16 + 8
      let cy : ℤ := (c.2 : ℤ) * 16 + 8
      setWhere (rectMask (cx - 3) (cy - 3) (cx + 3) (cy + 3)) ⟨30, 28, 35⟩ im)
    ((coordsYX (List.range 8) (List.range 8)).foldl
      (fun im c =>
        let x0 : ℤ := (c.1 : ℤ) * 16 + 2
        let y0 : ℤ := (c.2 : ℤ) * 16 + 2
        let x1 : ℤ := ((c.1 : ℤ) + 1) * 16 - 2
        let y1 : ℤ := ((c.2 : ℤ) + 1) * 16 - 2
        setWhere (rectMask (x0 + 1) (y0 + 1) (x1 - 1) (y1 - 1)) ⟨55, 53, 60⟩
          (setWhere (rectMask x0 y0 x1 y1) ⟨60, 58, 65⟩ im))
      (fill3 ⟨50, 48, 55⟩))

/-- gen_tech_floor: grate pattern then sequential noise (mag 4) seeded at
808. -/
def gen_tech_floor (R : RNG) (_ : R.State) : Img Pix3 :=
  (applyPerPixel R.State (uniNoiseStep R 4) texCoords techFloorImg (R.seed 808)).1

/-- Noise step of gen_green_stone: v = randint(-25, 25), then the extra
green jitter randint(-5, 5) drawn while building the tuple; r+v, g+v+extra,
b+v, clamped. -/
def greenNoiseStep (R : RNG) (_ : ℕ × ℕ) (s : R.State) (p : Pix3) : Pix3 × R.State :=
  let d := R.randint s (-25) 25
  let e := R.randint d.2 (-5) 5
  (⟨max 0 (min 255 (p.r + d.1)), max 0 (min 255 (p.g + d.1 + e.1)),
    max 0 (min 255 (p.b + d.1))⟩, e.2)

/-- gen_green_stone: base, noise seeded at 909, grid lines, SMOOTH. -/
def gen_green_stone (R : RNG) (_ : R.State) : Img Pix3 :=
  blurWith smoothKer 13 1
    (gridLines32 ⟨40, 60, 33⟩
      ((applyPerPixel R.State (greenNoiseStep R) texCoords
        (fill3 ⟨55, 80, 45⟩) (R.seed 909)).1))

/-- Panel grid of gen_ceiling_panel: for i in range(3) width-2 grid lines
at 64*i, then for row, col in range(2) the inset outline rectangle. -/
def ceilingImg : Img Pix3 :=
  (coordsYX (List.range 2) (List.range 2)).foldl
    (fun im c =>
      let x0 : ℤ := (c.1 : ℤ) * 64
      let y0 : ℤ := (c.2 : ℤ) * 64
      setWhere (rectOutlineMask (x0 + 4) (y0 + 4) (x0 + 60) (y0 + 60) 1) ⟨72, 69, 65⟩ im)
    ((List.range 3).foldl
      (fun im i =>
        setWhere (rectMask 0 ((i : ℤ) * 64) 128 ((i : ℤ) * 64 + 1)) ⟨45, 42, 38⟩
          (setWhere (rectMask ((i : ℤ) * 64) 0 ((i : ℤ) * 64 + 1) 128) ⟨45, 42, 38⟩ im))
      (fill3 ⟨65, 62, 58⟩))

/-- gen_ceiling_panel: grid then sequential noise (mag 8) seeded at 1010. -/
def gen_ceiling_panel (R : RNG) (_ : R.State) : Img Pix3 :=
  (applyPerPixel R.State (uniNoiseStep R 8) texCoords ceilingImg (R.seed 1010)).1

/-! Concrete instances of the external collaborators, used to witness and
to refute claims at explicit inputs. -/

/-- A concrete well-formed RNG: every draw returns the lower bound of the
requested interval, gauss returns 1 at state 0 and 0 afterwards, the state
counts the draws, seeding resets the counter to 0. -/
def rngPulse : RNG where
  State := ℕ
  seed := fun _ => 0
  gauss := fun s _ _ => (if s = 0 then 1 else 0, s + 1)
  uniform := fun s a _ => (a, s + 1)
  randint := fun s a _ => (a, s + 1)

/-- A concrete well-formed RNG whose randint depends on the state: the
lower bound at state 0, the upper bound elsewhere. -/
def rngFlip : RNG where
  State := ℕ
  seed := fun _ => 0
  gauss := fun s _ _ => (0, s + 1)
  uniform := fun s a _ => (a, s + 1)
  randint := fun s a b => (if s = 0 then a else b, s + 1)

/-- Follows the spec's words for claim comparison: the brown-noise layer
with the recurrence value = value*0.998 + gaussian(0, 0.02) (decay applied
to the previous value, then the draw added), each sample = value*0.4. -/
def brownLayerSpec (R : RNG) : R.State → ℚ → ℕ → List ℚ
  | _, _, 0 => []
  | s, v, n + 1 =>
    let d := R.gauss s 0 (1/50)
    let v2 := v * (499/500) + d.1
    v2 * (2/5) :: brownLayerSpec R d.2 v2 n

/-- The amended brown-noise recurrence, as the code computes it:
value = (value + gaussian(0, 0.02)) * 0.998, each sample = value*0.4. -/
def brownLayerAmended (R : RNG) : R.State → ℚ → ℕ → List ℚ
  | _, _, 0 => []
  | s, v, n + 1 =>
    let d := R.gauss s 0 (1/50)
    let v2 := (v + d.1) * (499/500)
    v2 * (2/5) :: brownLayerAmended R d.2 v2 n

/-- All channels of an RGB pixel lie in [0, 255]. -/
def InR3 (p : Pix3) : Prop :=
  0 ≤ p.r ∧ p.r ≤ 255 ∧ 0 ≤ p.g ∧ p.g ≤ 255 ∧ 0 ≤ p.b ∧ p.b ≤ 255

/-- All channels of an RGBA pixel lie in [0, 255]. -/
def InR4 (p : Pix4) : Prop :=
  0 ≤ p.r ∧ p.r ≤ 255 ∧ 0 ≤ p.g ∧ p.g ≤ 255 ∧ 0 ≤ p.b ∧ p.b ≤ 255 ∧
    0 ≤ p.a ∧ p.a ≤ 255

/-- Every pixel of an RGB image is in range. -/
def ImgInR3 (img : Img Pix3) : Prop := ∀ x y, InR3 (img x y)

/-- Every pixel of an RGBA image is in range. -/
def ImgInR4 (img : Img Pix4) : Prop := ∀ x y, InR4 (img x y)

/-! General lemmas about the image combinators. -/

theorem updImg_self (img : Img α) (x y : ℕ) (p : α) : updImg img x y p x y = p := by
  simp [updImg]

theorem updImg_ne (img : Img α) {x y x' y' : ℕ} (p : α) (h : ¬(x' = x ∧ y' = y)) :
    updImg img x y p x' y' = img x' y' := by
  simp [updImg, h]

theorem applyPerPixel_cons {σ : Type} (step : ℕ × ℕ → σ → α → α × σ)
    (c : ℕ × ℕ) (t : List (ℕ × ℕ)) (img : Img α) (s : σ) :
    applyPerPixel σ step (c :: t) img s =
      applyPerPixel σ step t (updImg img c.1 c.2 (step c s (img c.1 c.2)).1)
        (step c s (img c.1 c.2)).2 := rfl

theorem applyPerPixel_not_mem {σ : Type} (step : ℕ × ℕ → σ → α → α × σ)
    (coords : List (ℕ × ℕ)) (img : Img α) (s : σ) {x y : ℕ}
    (h : (x, y) ∉ coords) :
    (applyPerPixel σ step coords img s).1 x y = img x y := by
  induction coords generalizing img s with
  | nil => rfl
  | cons c t ih =>
    rw [applyPerPixel_cons]
    have hne : ¬(x = c.1 ∧ y = c.2) := by
      rintro ⟨rfl, rfl⟩
      exact h (by simp)
    rw [ih _ _ (fun hm => h (List.mem_cons_of_mem _ hm)), updImg_ne _ _ hne]

theorem applyPerPixel_skip {σ : Type} (step : ℕ × ℕ → σ → α → α × σ) (A : α → Prop)
    (hstep : ∀ c s p, A p → (step c s p).1 = p)
    (coords : List (ℕ × ℕ)) (img : Img α) (s : σ) {x y : ℕ} (h : A (img x y)) :
    (applyPerPixel σ step coords img s).1 x y = img x y := by
  induction coords generalizing img s with
  | nil => rfl
  | cons c t ih =>
    rw [applyPerPixel_cons]
    by_cases hc : x = c.1 ∧ y = c.2
    · have himg : img c.1 c.2 = img x y := by rw [hc.1, hc.2]
      have hv : (step c s (img c.1 c.2)).1 = img c.1 c.2 := hstep _ _ _ (himg ▸ h)
      have hupd : updImg img c.1 c.2 (step c s (img c.1 c.2)).1 x y = img x y := by
        rw [hc.1, hc.2, updImg_self, hv, himg]
      rw [ih _ _ (by rw [hupd]; exact h), hupd]
    · rw [ih _ _ (by rw [updImg_ne _ _ hc]; exact h), updImg_ne _ _ hc]

theorem applyPerPixel_get {σ : Type} (step : ℕ × ℕ → σ → α → α × σ)
    (coords : List (ℕ × ℕ)) (img : Img α) (s : σ) {x y : ℕ}
    (hmem : (x, y) ∈ coords) (hnd : coords.Nodup) :
    ∃ s', (applyPerPixel σ step coords img s).1 x y = (step (x, y) s' (img x y)).1 := by
  induction coords generalizing img s with
  | nil => cases hmem
  | cons c t ih =>
    rw [applyPerPixel_cons]
    rcases List.mem_cons.mp hmem with hc | ht
    · have hnt : (x, y) ∉ t := by
        rw [hc]
        exact (List.nodup_cons.mp hnd).1
      refine ⟨s, ?_⟩
      rw [applyPerPixel_not_mem _ _ _ _ hnt, ← hc]
      simp [updImg]
    · have hne : ¬(x = c.1 ∧ y = c.2) := by
        rintro ⟨rfl, rfl⟩
        exact (List.nodup_cons.mp hnd).1 ht
      obtain ⟨sm, hsm⟩ := ih (updImg img c.1 c.2 (step c s (img c.1 c.2)).1)
        (step c s (img c.1 c.2)).2 ht (List.nodup_cons.mp hnd).2
      refine ⟨sm, ?_⟩
      rw [hsm, updImg_ne _ _ hne]

theorem applyPerPixel_indep {σ : Type} (step : ℕ × ℕ → σ → α → α × σ)
    (hstep : ∀ c s1 s2 p, (step c s1 p).1 = (step c s2 p).1)
    (coords : List (ℕ × ℕ)) (img1 img2 : Img α)
    (heq : ∀ x y, img1 x y = img2 x y) (s1 s2 : σ) :
    ∀ x y, (applyPerPixel σ step coords img1 s1).1 x y =
      (applyPerPixel σ step coords img2 s2).1 x y := by
  induction coords generalizing img1 img2 s1 s2 with
  | nil => exact heq
  | cons c t ih =>
    rw [applyPerPixel_cons, applyPerPixel_cons]
    apply ih
    intro x y
    by_cases hc : x = c.1 ∧ y = c.2
    · obtain ⟨rfl, rfl⟩ := hc
      rw [updImg_self, updImg_self, heq, hstep]
    · rw [updImg_ne _ _ hc, updImg_ne _ _ hc, heq]

theorem applyPerPixel_range {σ : Type} (P : α → Prop) (step : ℕ × ℕ → σ → α → α × σ) :
    ∀ coords : List (ℕ × ℕ), (∀ c ∈ coords, ∀ s p, P p → P ((step c s p).1)) →
      ∀ (img : Img α) (s : σ), (∀ x y, P (img x y)) →
      ∀ x y, P ((applyPerPixel σ step coords img s).1 x y) := by
  intro coords
  induction coords with
  | nil => exact fun _ img s himg => himg
  | cons c t ih =>
    intro hstep img s himg
    rw [applyPerPixel_cons]
    apply ih (fun d hd => hstep d (List.mem_cons_of_mem _ hd))
    intro x y
    by_cases hc : x = c.1 ∧ y = c.2
    · rw [hc.1, hc.2, updImg_self]
      exact hstep c (List.mem_cons_self _ _) _ _ (himg c.1 c.2)
    · rw [updImg_ne _ _ hc]
      exact himg x y

theorem setWhere_inv (P : α → Prop) (mask : ℕ → ℕ → Bool) (c : α) (hc : P c)
    (img : Img α) (himg : ∀ x y, P (img x y)) : ∀ x y, P (setWhere mask c img x y) := by
  intro x y
  unfold setWhere
  split
  · exact hc
  · exact himg x y

theorem foldl_inv {γ β : Type} (P : γ → Prop) (f : γ → β → γ)
    (h : ∀ g b, P g → P (f g b)) :
    ∀ (l : List β) (init : γ), P init → P (l.foldl f init) := by
  intro l
  induction l with
  | nil => exact fun _ h0 => h0
  | cons b t ih => exact fun init h0 => ih _ (h _ _ h0)

theorem mem_rangeL {a b x : ℕ} : x ∈ rangeL a b ↔ a ≤ x ∧ x ≤ b := by
  constructor
  · intro hx
    obtain ⟨k, hk, rfl⟩ := List.mem_map.mp hx
    have := List.mem_range.mp hk
    omega
  · rintro ⟨h1, h2⟩
    exact List.mem_map.mpr ⟨x - a, List.mem_range.mpr (by omega), by omega⟩

theorem rangeL_nodup (a b : ℕ) : (rangeL a b).Nodup :=
  (List.nodup_range _).map (fun _ _ h => by omega)

theorem coordsYX_nodup (ys xs : List ℕ) (hy : ys.Nodup) (hx : xs.Nodup) :
    (coordsYX ys xs).Nodup := by
  refine List.nodup_flatMap.mpr ⟨fun y _ => hx.map fun a b h => by
    injection h, ?_⟩
  refine hy.imp (fun {a b} hab => ?_)
  simp only [Function.onFun, List.disjoint_left]
  rintro ⟨px, py⟩ hpa hpb
  obtain ⟨xa, _, ha⟩ := List.mem_map.mp hpa
  obtain ⟨xb, _, hb⟩ := List.mem_map.mp hpb
  injection ha with ha1 ha2
  injection hb with hb1 hb2
  exact hab (ha2.trans hb2.symm)

theorem mem_coordsYX {ys xs : List ℕ} {x y : ℕ} :
    (x, y) ∈ coordsYX ys xs ↔ y ∈ ys ∧ x ∈ xs := by
  simp only [coordsYX, List.mem_flatMap, List.mem_map]
  constructor
  · rintro ⟨b, hb, a, ha, h⟩
    injection h with h1 h2
    exact ⟨h2 ▸ hb, h1 ▸ ha⟩
  · rintro ⟨hy, hx⟩
    exact ⟨y, hy, x, hx, rfl⟩

/-! Lemmas about peaks, normalization and quantization. -/

theorem foldl_max_init_le (l : List ℚ) :
    ∀ a : ℚ, a ≤ l.foldl (fun m s => max m |s|) a := by
  induction l with
  | nil => exact fun a => le_refl a
  | cons x t ih => exact fun a => le_trans (le_max_left a |x|) (ih _)

theorem foldl_max_mem_le (l : List ℚ) :
    ∀ (a : ℚ) (x : ℚ), x ∈ l → |x| ≤ l.foldl (fun m s => max m |s|) a := by
  induction l with
  | nil => intro a x hx; cases hx
  | cons y t ih =>
    intro a x hx
    rcases List.mem_cons.mp hx with rfl | hxt
    · exact le_trans (le_max_right a |x|) (foldl_max_init_le t _)
    · exact ih _ _ hxt

theorem listPeak_nonneg (l : List ℚ) : 0 ≤ listPeak l := foldl_max_init_le l 0

theorem mem_le_listPeak {l : List ℚ} {x : ℚ} (hx : x ∈ l) : |x| ≤ listPeak l :=
  foldl_max_mem_le l 0 x hx

theorem foldl_max_scale (l : List ℚ) {c : ℚ} (hc : 0 ≤ c) :
    ∀ a : ℚ, (l.map (fun s => s * c)).foldl (fun m s => max m |s|) (a * c) =
      l.foldl (fun m s => max m |s|) a * c := by
  induction l with
  | nil => exact fun a => rfl
  | cons x t ih =>
    intro a
    have h1 : |x * c| = |x| * c := by
      rw [abs_mul, abs_of_nonneg hc]
    simp only [List.map_cons, List.foldl_cons]
    rw [h1, ← max_mul_of_nonneg _ _ hc, ih]

theorem listPeak_map_mul (l : List ℚ) {c : ℚ} (hc : 0 ≤ c) :
    listPeak (l.map (fun s => s * c)) = listPeak l * c := by
  have := foldl_max_scale l hc 0
  rw [zero_mul] at this
  exact this

theorem normalizeTo_listPeak (t : ℚ) (ht : 0 ≤ t) (l : List ℚ) :
    listPeak (normalizeTo t l) = if 0 < listPeak l then t else listPeak l := by
  unfold normalizeTo
  split
  · rename_i hp
    have hc : 0 ≤ t / listPeak l := div_nonneg ht (le_of_lt hp)
    have hmap : l.map (fun s => s / listPeak l * t) = l.map (fun s => s * (t / listPeak l)) := by
      apply List.map_congr_left
      intro x _
      field_simp
    rw [hmap, listPeak_map_mul l hc]
    field_simp
  · rfl

theorem normalizeTo_eq_of_peak_zero (t : ℚ) (l : List ℚ) (h : ¬0 < listPeak l) :
    normalizeTo t l = l := by
  unfold normalizeTo
  rw [if_neg h]

theorem listPeak_le_one_clamp (l : List ℚ) (h : listPeak l ≤ 1) :
    l.map clamp1 = l := by
  have : ∀ x ∈ l, clamp1 x = x := by
    intro x hx
    have habs := mem_le_listPeak hx
    have h1 : x ≤ 1 := le_trans (le_trans (le_abs_self x) habs) h
    have h2 : -1 ≤ x := by
      have := neg_abs_le x
      have : -(1 : ℚ) ≤ -|x| := by
        have := le_trans habs h
        linarith
      linarith [neg_abs_le x]
    unfold clamp1
    rw [min_eq_right h1, max_eq_right h2]
  calc l.map clamp1 = l.map id := List.map_congr_left fun x hx => this x hx
    _ = l := List.map_id l

theorem pyInt_bounds {q : ℚ} {m : ℤ} (h1 : -(m : ℚ) ≤ q) (h2 : q ≤ (m : ℚ)) :
    -m ≤ pyInt q ∧ pyInt q ≤ m := by
  unfold pyInt
  split
  · constructor
    · exact Int.le_floor.mpr (by exact_mod_cast h1)
    · have := Int.floor_le_floor h2
      rwa [Int.floor_intCast] at this
  · constructor
    · have := Int.ceil_le_ceil h1
      rw [show -(m : ℚ) = ((-m : ℤ) : ℚ) by push_cast; ring, Int.ceil_intCast] at this
      exact this
    · exact Int.ceil_le.mpr h2

theorem clamp1_bounds (s : ℚ) : -1 ≤ clamp1 s ∧ clamp1 s ≤ 1 := by
  unfold clamp1
  constructor
  · exact le_max_left _ _
  · exact max_le (by norm_num) (min_le_left _ _)

/-! The crossfade fold of gen_nukage_sizzle. -/

theorem crossfade_fold_spec (n fade : ℕ) (hfn : fade ≤ n - fade) (l : List ℚ)
    (hl : l.length = n) :
    ∀ m, m ≤ fade →
      ((List.range m).foldl (fun acc i =>
          acc.set i (acc.getD i 0 * ((i : ℚ) / (fade : ℚ)) +
            acc.getD (n - fade + i) 0 * (1 - (i : ℚ) / (fade : ℚ)))) l).length = n ∧
      (∀ j, m ≤ j →
        ((List.range m).foldl (fun acc i =>
          acc.set i (acc.getD i 0 * ((i : ℚ) / (fade : ℚ)) +
            acc.getD (n - fade + i) 0 * (1 - (i : ℚ) / (fade : ℚ)))) l).getD j 0 =
          l.getD j 0) ∧
      (∀ j, j < m →
        ((List.range m).foldl (fun acc i =>
          acc.set i (acc.getD i 0 * ((i : ℚ) / (fade : ℚ)) +
            acc.getD (n - fade + i) 0 * (1 - (i : ℚ) / (fade : ℚ)))) l).getD j 0 =
          l.getD j 0 * ((j : ℚ) / (fade : ℚ)) +
            l.getD (n - fade + j) 0 * (1 - (j : ℚ) / (fade : ℚ))) := by
  intro m
  induction m with
  | zero =>
    intro _
    refine ⟨hl, fun j _ => rfl, fun j hj => absurd hj (Nat.not_lt_zero j)⟩
  | succ m ih =>
    intro hm
    obtain ⟨ihlen, ihge, ihlt⟩ := ih (Nat.le_of_succ_le hm)
    have hmfade : m < fade := hm
    have hfaden : fade ≤ n := le_trans hfn (Nat.sub_le n fade)
    have hmn : m < n := lt_of_lt_of_le hmfade hfaden
    rw [List.range_succ, List.foldl_append, List.foldl_cons, List.foldl_nil]
    set A := (List.range m).foldl (fun acc i =>
      acc.set i (acc.getD i 0 * ((i : ℚ) / (fade : ℚ)) +
        acc.getD (n - fade + i) 0 * (1 - (i : ℚ) / (fade : ℚ)))) l with hA
    have hset_len : (A.set m (A.getD m 0 * ((m : ℚ) / (fade : ℚ)) +
        A.getD (n - fade + m) 0 * (1 - (m : ℚ) / (fade : ℚ)))).length = n := by
      rw [List.length_set, ihlen]
    refine ⟨hset_len, ?_, ?_⟩
    · intro j hj
      have hjm : m ≠ j := by omega
      rw [List.getD_eq_getElem?_getD, List.getElem?_set_ne hjm,
        ← List.getD_eq_getElem?_getD]
      exact ihge j (by omega)
    · intro j hj
      rcases Nat.lt_succ_iff_lt_or_eq.mp hj with hlt | rfl
      · have hjm : m ≠ j := by omega
        rw [List.getD_eq_getElem?_getD, List.getElem?_set_ne hjm,
          ← List.getD_eq_getElem?_getD]
        exact ihlt j hlt
      · have hjlen : j < A.length := by rw [ihlen]; exact hmn
        rw [List.getD_eq_getElem?_getD, List.getElem?_set_eq_of_lt _ hjlen]
        simp only [Option.getD_some]
        rw [ihge j (le_refl j), ihge (n - fade + j) (by omega)]

theorem crossfadeTrim_spec (n fade : ℕ) (hfn : fade ≤ n - fade) (l : List ℚ)
    (hl : l.length = n) :
    (crossfadeTrim n fade l).length = n - fade ∧
    (∀ i, i < fade → (crossfadeTrim n fade l).getD i 0 =
      l.getD i 0 * ((i : ℚ) / (fade : ℚ)) +
        l.getD (n - fade + i) 0 * (1 - (i : ℚ) / (fade : ℚ))) := by
  obtain ⟨hlen, _, hlt⟩ := crossfade_fold_spec n fade hfn l hl fade (le_refl fade)
  unfold crossfadeTrim
  constructor
  · rw [List.length_take, hlen]
    omega
  · intro i hi
    have : i < n - fade := lt_of_lt_of_le hi hfn
    rw [List.getD_eq_getElem?_getD, List.getElem?_take_of_lt this,
      ← List.getD_eq_getElem?_getD]
    exact hlt i hi

/-! Behaviour of gen_computer_hum under the concrete pulse RNG and the
constant-zero sine environment. -/

theorem humList_pulse (qpi : ℚ) : ∀ (n s0 i : ℕ),
    humList rngPulse (fun _ => 0) qpi s0 i n =
      (List.range n).map (fun k => if s0 + k = 0 then (1 : ℚ) else 0) := by
  intro n
  induction n with
  | zero => intro s0 i; rfl
  | succ n ih =>
    intro s0 i
    show (((0 : ℚ) * (1/2) + 0 * (1/4) + 0 * (3/25)) * (1 + (2/25) * 0) +
        (if s0 = 0 then (1 : ℚ) else 0)) ::
        humList rngPulse (fun _ => 0) qpi (s0 + 1) (i + 1) n =
      (List.range (n + 1)).map (fun k => if s0 + k = 0 then (1 : ℚ) else 0)
    rw [List.range_succ_eq_map, List.map_cons, List.map_map, ih (s0 + 1) (i + 1)]
    congr 1
    · have : s0 + 0 = s0 := Nat.add_zero s0
      rw [this]
      norm_num
    · congr 1
      funext k
      simp only [Function.comp]
      exact if_congr (by omega) rfl rfl

theorem humEnd_pulse : ∀ (n s0 : ℕ), humEnd rngPulse s0 n = s0 + n := by
  intro n
  induction n with
  | zero => intro s0; rfl
  | succ n ih =>
    intro s0
    have h1 : humEnd rngPulse s0 (n + 1) = humEnd rngPulse ((s0 + 1 : ℕ)) n := rfl
    rw [h1, ih (s0 + 1)]
    show s0 + 1 + n = s0 + (n + 1)
    omega

theorem range_map_pulse_zero (n : ℕ) (s0 : ℕ) (hs : s0 ≠ 0) :
    (List.range n).map (fun k => if s0 + k = 0 then (1 : ℚ) else 0) =
      List.replicate n 0 := by
  induction n with
  | zero => rfl
  | succ n ih =>
    rw [List.range_succ, List.map_append, ih, List.map_cons, List.map_nil]
    have : ¬(s0 + n = 0) := by omega
    rw [if_neg this]
    rw [List.replicate_succ']

theorem range_map_pulse_one (n : ℕ) :
    (List.range (n + 1)).map (fun k => if 0 + k = 0 then (1 : ℚ) else 0) =
      1 :: List.replicate n 0 := by
  induction n with
  | zero =>
    rw [show List.range 1 = [0] from rfl]
    simp
  | succ n ih =>
    rw [List.range_succ, List.map_append, ih, List.replicate_succ']
    simp

theorem foldl_max_replicate_zero (m : ℕ) :
    ∀ a : ℚ, 0 ≤ a → (List.replicate m 0).foldl (fun mx s => max mx |s|) a = a := by
  induction m with
  | zero => intro a _; rfl
  | succ m ih =>
    intro a ha
    rw [List.replicate_succ, List.foldl_cons]
    have : max a |(0 : ℚ)| = a := by
      rw [abs_zero]
      exact max_eq_left ha
    rw [this]
    exact ih a ha

theorem listPeak_replicate_zero (m : ℕ) : listPeak (List.replicate m 0) = 0 :=
  foldl_max_replicate_zero m 0 (le_refl 0)

theorem listPeak_one_cons (m : ℕ) : listPeak (1 :: List.replicate m 0) = 1 := by
  unfold listPeak
  rw [List.foldl_cons]
  have h1 : max (0 : ℚ) |(1 : ℚ)| = 1 := by
    rw [abs_one]
    exact max_eq_right (by norm_num)
  rw [h1]
  exact foldl_max_replicate_zero m 1 (by norm_num)

/-! One-step head lemmas for the sequential audio layers. -/

theorem brownLayer_head (R : RNG) (s : R.State) (b : ℚ) (n : ℕ) :
    (brownLayer R s b (n + 1)).head? =
      some ((b + (R.gauss s 0 (1/50)).1) * (499/500) * (2/5)) := rfl

theorem brownLayerSpec_head (R : RNG) (s : R.State) (b : ℚ) (n : ℕ) :
    (brownLayerSpec R s b (n + 1)).head? =
      some ((b * (499/500) + (R.gauss s 0 (1/50)).1) * (2/5)) := rfl

/-! Numeric values of the buffer-size constants. -/

theorem nukN_eq : nukN = 66150 := by
  unfold nukN pyInt
  norm_num
  rfl

theorem nukFade_eq : nukFade = 1102 := by
  unfold nukFade pyInt
  norm_num
  rfl

theorem humN_eq : humN = 44100 := by
  unfold humN pyInt
  norm_num
  rfl

/-! The two consecutive runs of gen_computer_hum under the pulse RNG. -/

theorem humPre_pulse_first :
    humPre rngPulse (fun _ => 0) 0 (rngPulse.seed 0) = 1 :: List.replicate 44099 0 := by
  unfold humPre
  rw [humN_eq]
  have hseed : rngPulse.seed 0 = (0 : ℕ) := rfl
  rw [hseed]
  rw [show (44100 : ℕ) = 44099 + 1 by norm_num]
  rw [humList_pulse 0 (44099 + 1) 0 0]
  exact range_map_pulse_one 44099

theorem humPre_pulse_second :
    humPre rngPulse (fun _ => 0) 0 (gen_computer_hum_post rngPulse (rngPulse.seed 0)) =
      List.replicate 44100 0 := by
  unfold humPre gen_computer_hum_post
  rw [humN_eq]
  have hseed : rngPulse.seed 0 = (0 : ℕ) := rfl
  rw [hseed]
  have hend : humEnd rngPulse (0 : ℕ) 44100 = (44100 : ℕ) := by
    rw [humEnd_pulse 44100 0]
  rw [hend, humList_pulse 0 44100 44100 0]
  exact range_map_pulse_zero 44100 44100 (by norm_num)

theorem gen_hum_pulse_first_head :
    (gen_computer_hum rngPulse (fun _ => 0) 0 (rngPulse.seed 0)).head? = some (3/5) := by
  unfold gen_computer_hum
  rw [humPre_pulse_first]
  unfold normalizeTo
  rw [listPeak_one_cons 44099, if_pos (by norm_num : (0 : ℚ) < 1), List.map_cons,
    List.head?_cons]
  norm_num

theorem gen_hum_pulse_second_head :
    (gen_computer_hum rngPulse (fun _ => 0) 0
      (gen_computer_hum_post rngPulse (rngPulse.seed 0))).head? = some 0 := by
  unfold gen_computer_hum
  rw [humPre_pulse_second]
  unfold normalizeTo
  rw [listPeak_replicate_zero, if_neg (by norm_num),
    show (44100 : ℕ) = 44099 + 1 by norm_num, List.replicate_succ, List.head?_cons]

/-! State-independence of the coordinate-seeded noise steps (shared by the
determinism and dual-seeding claims). -/

theorem brickNoiseStep_indep (R : RNG) (c : ℕ × ℕ) (s1 s2 : R.State) (p : Pix3) :
    (brickNoiseStep R c s1 p).1 = (brickNoiseStep R c s2 p).1 := by
  by_cases h : p ≠ brickMortar <;> simp [brickNoiseStep, h]

theorem tileNoiseStep_indep (R : RNG) (c : ℕ × ℕ) (s1 s2 : R.State) (p : Pix3) :
    (tileNoiseStep R c s1 p).1 = (tileNoiseStep R c s2 p).1 := by
  by_cases h : 5 < |p.r - 65| <;> simp [tileNoiseStep, h]

theorem gen_brown_brick_indep (R : RNG) (s s' : R.State) :
    ∀ x y, gen_brown_brick R s x y = gen_brown_brick R s' x y :=
  applyPerPixel_indep (brickNoiseStep R) (brickNoiseStep_indep R) texCoords
    brickMortarImg brickMortarImg (fun _ _ => rfl) s s'

theorem gen_gray_tile_floor_indep (R : RNG) (s s' : R.State) :
    ∀ x y, gen_gray_tile_floor R s x y = gen_gray_tile_floor R s' x y :=
  applyPerPixel_indep (tileNoiseStep R) (tileNoiseStep_indep R) texCoords
    tileGrooveImg tileGrooveImg (fun _ _ => rfl) s s'

/-- C1 (counterexample): running gen_computer_hum twice in a row does not
reproduce the first buffer.  In the concrete environment rngPulse (a
well-formed random library whose state counts the draws and whose gauss
pulse is 1 on the first draw only) with the sine library instantiated at
the constant-zero function, the second run (from the post-state of the
first) differs from the first run: the first buffer starts with 3/5, the
second is all zeros.  gen_computer_hum never re-seeds, so its output
depends on the ambient RNG state. -/
theorem gen_computer_hum_second_run_differs :
    gen_computer_hum rngPulse (fun _ => 0) 0
        (gen_computer_hum_post rngPulse (rngPulse.seed 0)) ≠
      gen_computer_hum rngPulse (fun _ => 0) 0 (rngPulse.seed 0) := by
  intro h
  have h2 := gen_hum_pulse_second_head
  rw [h, gen_hum_pulse_first_head] at h2
  have := Option.some.inj h2
  norm_num at this

/-- C1 (amended): every generation operation except gen_computer_hum is
deterministic: each re-seeds the RNG before any draw (or re-seeds at every
draw), so its output buffer is independent of the ambient RNG state, and
two consecutive runs are byte-identical.  Stated as: for any RNG model,
sine library and pair of ambient states, the outputs coincide pointwise. -/
theorem generators_deterministic_except_hum (R : RNG) (qs : ℚ → ℚ) (qpi : ℚ)
    (s s' : R.State) (x y : ℕ) :
    gen_nukage_sizzle R qs qpi s = gen_nukage_sizzle R qs qpi s' ∧
    gen_barrel R s x y = gen_barrel R s' x y ∧
    gen_computer_panel R s x y = gen_computer_panel R s' x y ∧
    gen_tech_column R s x y = gen_tech_column R s' x y ∧
    gen_brown_brick R s x y = gen_brown_brick R s' x y ∧
    gen_brown_stone_floor R s x y = gen_brown_stone_floor R s' x y ∧
    gen_gray_concrete R s x y = gen_gray_concrete R s' x y ∧
    gen_gray_tile_floor R s x y = gen_gray_tile_floor R s' x y ∧
    gen_dark_teal_metal R s x y = gen_dark_teal_metal R s' x y ∧
    gen_tan_walkway R s x y = gen_tan_walkway R s' x y ∧
    gen_blue_tech_panel R s x y = gen_blue_tech_panel R s' x y ∧
    gen_tech_floor R s x y = gen_tech_floor R s' x y ∧
    gen_green_stone R s x y = gen_green_stone R s' x y ∧
    gen_ceiling_panel R s x y = gen_ceiling_panel R s' x y :=
  ⟨rfl, rfl, rfl, rfl, gen_brown_brick_indep R s s' x y, rfl, rfl,
    gen_gray_tile_floor_indep R s s' x y, rfl, rfl, rfl, rfl, rfl, rfl⟩

/-- C2 (counterexample): the noise of the sequential texture generators is
not a pure function of pixel position.  Concretely, for the noise step of
gen_dark_teal_metal under the well-formed RNG rngFlip, processing the base
pixel at position (0,0) at the start of the pass and processing the same
pixel and position after one earlier draw give different values, so the
claimed per-pixel re-seeding (which would make the value independent of
the incoming state) is absent. -/
theorem uniNoiseStep_state_dependent :
    (uniNoiseStep rngFlip 6 (0, 0) (rngFlip.seed 505) ⟨35, 75, 65⟩).1 ≠
      (uniNoiseStep rngFlip 6 (0, 0)
        (uniNoiseStep rngFlip 6 (0, 0) (rngFlip.seed 505) ⟨35, 75, 65⟩).2
        ⟨35, 75, 65⟩).1 := by
  intro h
  have h1 : (uniNoiseStep rngFlip 6 (0, 0) (rngFlip.seed 505) ⟨35, 75, 65⟩).1 =
      ⟨29, 69, 59⟩ := rfl
  have h2 : (uniNoiseStep rngFlip 6 (0, 0)
      (uniNoiseStep rngFlip 6 (0, 0) (rngFlip.seed 505) ⟨35, 75, 65⟩).2
      ⟨35, 75, 65⟩).1 = ⟨41, 81, 71⟩ := rfl
  rw [h1, h2] at h
  exact absurd (congrArg Pix3.r h) (by norm_num)

/-- C2 (amended): exactly the two texture generators gen_brown_brick and
gen_gray_tile_floor apply their noise in two independent seeded passes — a
coarse jitter re-seeded from the brick/tile index summed with a fine
jitter re-seeded from the absolute pixel index — which makes the noise
value written at a pixel independent of the incoming RNG state, i.e. a
pure function of the pixel position and the pixel's current colour; the
other eight generators draw their noise sequentially from a single seed
set before the pass. -/
theorem dual_seeded_noise_brick_and_tile (R : RNG) (c : ℕ × ℕ)
    (s1 s2 : R.State) (p : Pix3) :
    (brickNoiseStep R c s1 p).1 = (brickNoiseStep R c s2 p).1 ∧
    (tileNoiseStep R c s1 p).1 = (tileNoiseStep R c s2 p).1 :=
  ⟨brickNoiseStep_indep R c s1 s2 p, tileNoiseStep_indep R c s1 s2 p⟩

/-- C3 (counterexample): the brown-noise layer of gen_nukage_sizzle does
not follow the claimed recurrence value = value*0.998 + gaussian(0,0.02).
Under the concrete environment rngPulse (first gauss draw 1, later draws
0), at the generator's own call (state seeded at 1234, initial value 0,
n_samples many samples) the code's layer starts with 0.998*0.4 = 499/1250
while the claimed recurrence starts with 1*0.4 = 2/5. -/
theorem brownLayer_differs_from_spec_recurrence :
    brownLayer rngPulse (rngPulse.seed 1234) 0 nukN ≠
      brownLayerSpec rngPulse (rngPulse.seed 1234) 0 nukN := by
  intro h
  have h1 := congrArg List.head? h
  rw [nukN_eq, show (66150 : ℕ) = 66149 + 1 by norm_num, brownLayer_head,
    brownLayerSpec_head] at h1
  have h2 := Option.some.inj h1
  have hg : (rngPulse.gauss (rngPulse.seed 1234) 0 (1/50)).1 = 1 := rfl
  rw [hg] at h2
  norm_num at h2

/-- C3 (amended): the brown-noise layer of gen_nukage_sizzle maintains a
running value updated per sample by value = (value + gaussian(0, 0.02)) *
0.998 — the Gaussian draw is added first and the decay then applied to the
sum — and each sample receives this value multiplied by weight 0.4. -/
theorem brownLayer_amended_recurrence (R : RNG) :
    ∀ (n : ℕ) (s : R.State) (v : ℚ),
      brownLayer R s v n = brownLayerAmended R s v n := by
  intro n
  induction n with
  | zero => intro s v; rfl
  | succ n ih =>
    intro s v
    show ((v + (R.gauss s 0 (1/50)).1) * (499/500)) * (2/5) ::
        brownLayer R (R.gauss s 0 (1/50)).2 ((v + (R.gauss s 0 (1/50)).1) * (499/500)) n =
      ((v + (R.gauss s 0 (1/50)).1) * (499/500)) * (2/5) ::
        brownLayerAmended R (R.gauss s 0 (1/50)).2
          ((v + (R.gauss s 0 (1/50)).1) * (499/500)) n
    rw [ih]

/-! Alpha-255 preservation through the panel drawing chain. -/

theorem setWhere_alpha {mask : ℕ → ℕ → Bool} {c : Pix4} {img : Img Pix4} {x y : ℕ}
    (hc : c.a = 255) (h : (img x y).a = 255) : (setWhere mask c img x y).a = 255 := by
  unfold setWhere
  split
  · exact hc
  · exact h

theorem panelSegs_alpha (R : RNG) :
    ∀ (k : ℕ) (yr : ℤ) (img : Img Pix4) (s : R.State) (x y : ℕ),
      (img x y).a = 255 → ((panelSegs R k yr img s).1 x y).a = 255 := by
  intro k
  induction k with
  | zero => intro yr img s x y h; exact h
  | succ k ih =>
    intro yr img s x y h
    exact ih yr _ _ x y (setWhere_alpha rfl h)

theorem panelRows_alpha (R : RNG) :
    ∀ (rows : List ℕ) (img : Img Pix4) (s : R.State) (x y : ℕ),
      (img x y).a = 255 → ((panelRows R rows img s).1 x y).a = 255 := by
  intro rows
  induction rows with
  | nil => intro img s x y h; exact h
  | cons r t ih =>
    intro img s x y h
    exact ih _ _ x y (panelSegs_alpha R _ _ img _ x y h)

theorem panel_scan_alpha (l : List ℤ) (img : Img Pix4) (x y : ℕ)
    (h : (img x y).a = 255) :
    ((l.foldl (fun im k =>
      setWhere (rectMask 8 k 39 k) ⟨20, 55, 65, 255⟩ im) img) x y).a = 255 := by
  induction l generalizing img with
  | nil => exact h
  | cons k t ih => exact ih _ (setWhere_alpha rfl h)

/-- C4 (counterexample): the output of gen_computer_panel is not fully
opaque: the canvas starts fully transparent and the outermost drawn
rectangle is [2,2,45,45], so the corner pixel (0,0) still has alpha 0 in
the final image (evaluated here in the concrete environment rngPulse). -/
theorem gen_computer_panel_corner_transparent :
    (gen_computer_panel rngPulse (rngPulse.seed 0) 0 0).a = 0 := by decide

/-- C4 (amended): every pixel of the 48x48 gen_computer_panel output
inside the casing rectangle [2,45] x [2,45] is fully opaque (alpha 255);
only the two-pixel border ring outside it keeps the transparent canvas.
There is no noise pass, so no pixel is modified after drawing. -/
theorem gen_computer_panel_alpha_region (R : RNG) (s : R.State) (x y : ℕ)
    (hx1 : 2 ≤ x) (hx2 : x ≤ 45) (hy1 : 2 ≤ y) (hy2 : y ≤ 45) :
    (gen_computer_panel R s x y).a = 255 := by
  unfold gen_computer_panel
  apply setWhere_alpha rfl
  apply setWhere_alpha rfl
  apply setWhere_alpha rfl
  apply setWhere_alpha rfl
  apply panelRows_alpha
  unfold panelBase
  apply panel_scan_alpha
  apply setWhere_alpha rfl
  apply setWhere_alpha rfl
  apply setWhere_alpha rfl
  apply setWhere_alpha rfl
  have hmask : rectMask 2 2 45 45 x y = true := by
    simp only [rectMask, decide_eq_true_eq]
    omega
  simp [setWhere, hmask]

/-- Witness for the amended C4 theorem at the concrete corner (2,2). -/
theorem gen_computer_panel_alpha_region_witness :
    (gen_computer_panel rngPulse (rngPulse.seed 0) 2 2).a = 255 :=
  gen_computer_panel_alpha_region rngPulse (rngPulse.seed 0) 2 2
    (by norm_num) (by norm_num) (by norm_num) (by norm_num)

/-! Alpha-skip behaviour of the sprite passes. -/

theorem spriteNoiseStep_skip (R : RNG) (mag : ℤ) (c : ℕ × ℕ) (s : R.State)
    (p : Pix4) (h : p.a = 0) : (spriteNoiseStep R mag c s p).1 = p := by
  unfold spriteNoiseStep
  rw [h]
  norm_num

theorem barrelShadeStep_skip (c : ℕ × ℕ) (u : Unit) (p : Pix4) (h : p.a = 0) :
    (barrelShadeStep c u p).1 = p := by
  unfold barrelShadeStep
  rw [h]
  norm_num

theorem columnShadeStep_skip (c : ℕ × ℕ) (u : Unit) (p : Pix4) (h : p.a = 0) :
    (columnShadeStep c u p).1 = p := by
  unfold columnShadeStep
  rw [h]
  norm_num

/-- C5: in the transparent-background sprites the shading steps and the
per-pixel noise steps never modify a pixel whose alpha is 0 (each tests
alpha > 0 and skips), every pixel left transparent by the drawing steps is
unchanged by the noise pass and so stays transparent in the final image,
and in particular the four canvas corners (0,0), (31,0), (0,47), (31,47)
of gen_barrel have alpha 0 in the output. -/
theorem sprite_transparency_preserved (R : RNG) (s : R.State) (x y : ℕ)
    (c : ℕ × ℕ) (u : Unit) (st : R.State) (p : Pix4)
    (hp : p.a = 0)
    (hb : (barrelPreNoise x y).a = 0)
    (hc : (columnPreNoise x y).a = 0) :
    (barrelShadeStep c u p).1 = p ∧
    (spriteNoiseStep R 8 c st p).1 = p ∧
    (columnShadeStep c u p).1 = p ∧
    (spriteNoiseStep R 5 c st p).1 = p ∧
    gen_barrel R s x y = barrelPreNoise x y ∧
    gen_tech_column R s x y = columnPreNoise x y ∧
    (gen_barrel R s 0 0).a = 0 ∧ (gen_barrel R s 31 0).a = 0 ∧
    (gen_barrel R s 0 47).a = 0 ∧ (gen_barrel R s 31 47).a = 0 := by
  have hbarrel : ∀ x' y', (barrelPreNoise x' y').a = 0 →
      gen_barrel R s x' y' = barrelPreNoise x' y' := fun x' y' h =>
    applyPerPixel_skip (spriteNoiseStep R 8) (fun q => q.a = 0)
      (spriteNoiseStep_skip R 8) _ _ _ h
  have hcol : gen_tech_column R s x y = columnPreNoise x y :=
    applyPerPixel_skip (spriteNoiseStep R 5) (fun q => q.a = 0)
      (spriteNoiseStep_skip R 5) _ _ _ hc
  have hcorner : ∀ x' y', (barrelPreNoise x' y').a = 0 → (gen_barrel R s x' y').a = 0 :=
    fun x' y' h => by rw [hbarrel x' y' h]; exact h
  exact ⟨barrelShadeStep_skip c u p hp, spriteNoiseStep_skip R 8 c st p hp,
    columnShadeStep_skip c u p hp, spriteNoiseStep_skip R 5 c st p hp,
    hbarrel x y hb, hcol,
    hcorner 0 0 (by decide), hcorner 31 0 (by decide),
    hcorner 0 47 (by decide), hcorner 31 47 (by decide)⟩

/-- Witness for C5 at the concrete point (0,0) with the fully transparent
pixel and the concrete RNG rngPulse. -/
theorem sprite_transparency_preserved_witness :
    (barrelShadeStep (0, 0) () ⟨0, 0, 0, 0⟩).1 = ⟨0, 0, 0, 0⟩ ∧
    (spriteNoiseStep rngPulse 8 (0, 0) (rngPulse.seed 0) ⟨0, 0, 0, 0⟩).1 = ⟨0, 0, 0, 0⟩ ∧
    (columnShadeStep (0, 0) () ⟨0, 0, 0, 0⟩).1 = ⟨0, 0, 0, 0⟩ ∧
    (spriteNoiseStep rngPulse 5 (0, 0) (rngPulse.seed 0) ⟨0, 0, 0, 0⟩).1 = ⟨0, 0, 0, 0⟩ ∧
    gen_barrel rngPulse (rngPulse.seed 0) 0 0 = barrelPreNoise 0 0 ∧
    gen_tech_column rngPulse (rngPulse.seed 0) 0 0 = columnPreNoise 0 0 ∧
    (gen_barrel rngPulse (rngPulse.seed 0) 0 0).a = 0 ∧
    (gen_barrel rngPulse (rngPulse.seed 0) 31 0).a = 0 ∧
    (gen_barrel rngPulse (rngPulse.seed 0) 0 47).a = 0 ∧
    (gen_barrel rngPulse (rngPulse.seed 0) 31 47).a = 0 :=
  sprite_transparency_preserved rngPulse (rngPulse.seed 0) 0 0 (0, 0) ()
    (rngPulse.seed 0) ⟨0, 0, 0, 0⟩ rfl (by decide) (by decide)

/-! Range invariants of the drawing and noise passes. -/

theorem mem_coordsXY {xs ys : List ℕ} {x y : ℕ} :
    (x, y) ∈ coordsXY xs ys ↔ x ∈ xs ∧ y ∈ ys := by
  simp only [coordsXY, List.mem_flatMap, List.mem_map]
  constructor
  · rintro ⟨a, ha, b, hb, h⟩
    injection h with h1 h2
    exact ⟨h1 ▸ ha, h2 ▸ hb⟩
  · rintro ⟨hx, hy⟩
    exact ⟨x, hx, y, hy, rfl⟩

theorem clamp255_range (z : ℤ) : 0 ≤ max 0 (min 255 z) ∧ max 0 (min 255 z) ≤ 255 :=
  ⟨le_max_left _ _, max_le (by norm_num) (min_le_left _ _)⟩

theorem pyInt_range_of_bounds {q : ℚ} {lo hi : ℤ} (h1 : (lo : ℚ) ≤ q) (h2 : q ≤ (hi : ℚ)) :
    lo ≤ pyInt q ∧ pyInt q ≤ hi := by
  unfold pyInt
  split
  · exact ⟨Int.le_floor.mpr h1, by
      have := Int.floor_le_floor h2
      rwa [Int.floor_intCast] at this⟩
  · exact ⟨by
      have := Int.ceil_le_ceil h1
      rwa [Int.ceil_intCast] at this, Int.ceil_le.mpr h2⟩

theorem pyInt_nonneg {q : ℚ} (h : 0 ≤ q) : 0 ≤ pyInt q := by
  unfold pyInt
  rw [if_pos h]
  exact Int.le_floor.mpr (by push_cast; linarith)

theorem pyInt_le_of_le {q : ℚ} {m : ℤ} (h : q ≤ (m : ℚ)) : pyInt q ≤ m := by
  unfold pyInt
  split
  · have := Int.floor_le_floor h
    rwa [Int.floor_intCast] at this
  · exact Int.ceil_le.mpr h

theorem shade_range {k cd : ℚ} {m : ℤ} (hk : 0 ≤ k) (hcd0 : 0 ≤ cd) (hcd1 : cd ≤ 1)
    (hm : k ≤ (m : ℚ)) :
    0 ≤ pyInt (k * (1 - cd * cd)) ∧ pyInt (k * (1 - cd * cd)) ≤ m := by
  have h1 : cd * cd ≤ 1 := by nlinarith
  have h2 : 0 ≤ 1 - cd * cd := by linarith
  constructor
  · exact pyInt_nonneg (mul_nonneg hk h2)
  · exact pyInt_le_of_le
      (le_trans (mul_le_of_le_one_right hk (by nlinarith [mul_self_nonneg cd])) hm)

theorem barrelShadeStep_range (c : ℕ × ℕ) (h4 : 4 ≤ c.1) (h27 : c.1 ≤ 27)
    (u : Unit) (p : Pix4) (hp : InR4 p) : InR4 ((barrelShadeStep c u p).1) := by
  obtain ⟨hr0, hr1, hg0, hg1, hb0, hb1, ha0, ha1⟩ := hp
  unfold barrelShadeStep
  split
  · have hx4 : (4 : ℚ) ≤ (c.1 : ℚ) := by exact_mod_cast h4
    have hx27 : (c.1 : ℚ) ≤ 27 := by exact_mod_cast h27
    have hcd0 : 0 ≤ |(c.1 : ℚ) - (4 + 27) / 2| / ((27 - 4) / 2) :=
      div_nonneg (abs_nonneg _) (by norm_num)
    have hcd1 : |(c.1 : ℚ) - (4 + 27) / 2| / ((27 - 4) / 2) ≤ 1 := by
      rw [div_le_one (by norm_num : (0 : ℚ) < (27 - 4) / 2), abs_le]
      constructor <;> linarith
    have hsh := shade_range (k := 20) (m := 20) (by norm_num) hcd0 hcd1 (by norm_num)
    have hf0 : 0 ≤ (pyInt (20 * (1 - |(c.1 : ℚ) - (4 + 27) / 2| / ((27 - 4) / 2) *
        (|(c.1 : ℚ) - (4 + 27) / 2| / ((27 - 4) / 2))))).fdiv 2 :=
      Int.fdiv_nonneg hsh.1 (by norm_num)
    refine ⟨le_min (by norm_num) (by omega), min_le_left _ _,
      le_min (by norm_num) (by omega), min_le_left _ _,
      le_min (by norm_num) (by omega), min_le_left _ _, ha0, ha1⟩
  · exact ⟨hr0, hr1, hg0, hg1, hb0, hb1, ha0, ha1⟩

theorem columnShadeStep_range (c : ℕ × ℕ) (h4 : 4 ≤ c.1) (h19 : c.1 ≤ 19)
    (u : Unit) (p : Pix4) (hp : InR4 p) : InR4 ((columnShadeStep c u p).1) := by
  obtain ⟨hr0, hr1, hg0, hg1, hb0, hb1, ha0, ha1⟩ := hp
  unfold columnShadeStep
  split
  · have hx4 : (4 : ℚ) ≤ (c.1 : ℚ) := by exact_mod_cast h4
    have hx19 : (c.1 : ℚ) ≤ 19 := by exact_mod_cast h19
    have hcd0 : 0 ≤ |(c.1 : ℚ) - (4 + 19) / 2| / ((19 - 4) / 2) :=
      div_nonneg (abs_nonneg _) (by norm_num)
    have hcd1 : |(c.1 : ℚ) - (4 + 19) / 2| / ((19 - 4) / 2) ≤ 1 := by
      rw [div_le_one (by norm_num : (0 : ℚ) < (19 - 4) / 2), abs_le]
      constructor <;> linarith
    have hsh := shade_range (k := 25) (m := 25) (by norm_num) hcd0 hcd1 (by norm_num)
    refine ⟨le_min (by norm_num) (by omega), min_le_left _ _,
      le_min (by norm_num) (by omega), min_le_left _ _,
      le_min (by norm_num) (by omega), min_le_left _ _, ha0, ha1⟩
  · exact ⟨hr0, hr1, hg0, hg1, hb0, hb1, ha0, ha1⟩

theorem spriteNoiseStep_range (R : RNG) (mag : ℤ) (c : ℕ × ℕ) (s : R.State)
    (p : Pix4) (hp : InR4 p) : InR4 ((spriteNoiseStep R mag c s p).1) := by
  obtain ⟨_, _, _, _, _, _, ha0, ha1⟩ := hp
  unfold spriteNoiseStep
  split
  · exact ⟨(clamp255_range _).1, (clamp255_range _).2, (clamp255_range _).1,
      (clamp255_range _).2, (clamp255_range _).1, (clamp255_range _).2, ha0, ha1⟩
  · exact ⟨by assumption, by assumption, by assumption, by assumption,
      by assumption, by assumption, ha0, ha1⟩

theorem barrelPreNoise_range : ∀ x y, InR4 (barrelPreNoise x y) := by
  unfold barrelPreNoise
  apply setWhere_inv InR4 _ _ (by norm_num [InR4])
  apply setWhere_inv InR4 _ _ (by norm_num [InR4])
  apply setWhere_inv InR4 _ _ (by norm_num [InR4])
  apply setWhere_inv InR4 _ _ (by norm_num [InR4])
  apply setWhere_inv InR4 _ _ (by norm_num [InR4])
  apply setWhere_inv InR4 _ _ (by norm_num [InR4])
  apply foldl_inv (fun im => ∀ a b, InR4 (im a b)) _
    (fun im k h => setWhere_inv InR4 _ _ (by norm_num [InR4]) im h)
  apply applyPerPixel_range InR4 _ barrelShadeCoords
    (fun c hc s p hp => by
      have hb := mem_rangeL.mp (mem_coordsXY.mp hc).1
      exact barrelShadeStep_range c hb.1 hb.2 s p hp)
  apply setWhere_inv InR4 _ _ (by norm_num [InR4])
  intro x y
  exact (by norm_num [InR4] : InR4 (⟨0, 0, 0, 0⟩ : Pix4))

theorem gen_barrel_range (R : RNG) (s : R.State) : ∀ x y, InR4 (gen_barrel R s x y) := by
  unfold gen_barrel
  exact applyPerPixel_range InR4 _ _
    (fun c _ st p hp => spriteNoiseStep_range R 8 c st p hp)
    barrelPreNoise (R.seed 111) barrelPreNoise_range

theorem panelSegs_range (R : RNG) :
    ∀ (k : ℕ) (yr : ℤ) (img : Img Pix4) (s : R.State),
      (∀ x y, InR4 (img x y)) → ∀ x y, InR4 ((panelSegs R k yr img s).1 x y) := by
  intro k
  induction k with
  | zero => intro yr img s h; exact h
  | succ k ih =>
    intro yr img s h
    exact ih yr _ _ (setWhere_inv InR4 _ _ (by norm_num [InR4]) img h)

theorem panelRows_range (R : RNG) :
    ∀ (rows : List ℕ) (img : Img Pix4) (s : R.State),
      (∀ x y, InR4 (img x y)) → ∀ x y, InR4 ((panelRows R rows img s).1 x y) := by
  intro rows
  induction rows with
  | nil => intro img s h; exact h
  | cons r t ih =>
    intro img s h
    exact ih _ _ (panelSegs_range R _ _ img _ h)

theorem gen_computer_panel_range (R : RNG) (s : R.State) :
    ∀ x y, InR4 (gen_computer_panel R s x y) := by
  unfold gen_computer_panel
  apply setWhere_inv InR4 _ _ (by norm_num [InR4])
  apply setWhere_inv InR4 _ _ (by norm_num [InR4])
  apply setWhere_inv InR4 _ _ (by norm_num [InR4])
  apply setWhere_inv InR4 _ _ (by norm_num [InR4])
  apply panelRows_range
  unfold panelBase
  apply foldl_inv (fun im => ∀ a b, InR4 (im a b)) _
    (fun im k h => setWhere_inv InR4 _ _ (by norm_num [InR4]) im h)
  apply setWhere_inv InR4 _ _ (by norm_num [InR4])
  apply setWhere_inv InR4 _ _ (by norm_num [InR4])
  apply setWhere_inv InR4 _ _ (by norm_num [InR4])
  apply setWhere_inv InR4 _ _ (by norm_num [InR4])
  apply setWhere_inv InR4 _ _ (by norm_num [InR4])
  intro x y
  exact (by norm_num [InR4] : InR4 (⟨0, 0, 0, 0⟩ : Pix4))

theorem columnPreNoise_range : ∀ x y, InR4 (columnPreNoise x y) := by
  unfold columnPreNoise
  apply setWhere_inv InR4 _ _ (by norm_num [InR4])
  apply setWhere_inv InR4 _ _ (by norm_num [InR4])
  apply setWhere_inv InR4 _ _ (by norm_num [InR4])
  apply setWhere_inv InR4 _ _ (by norm_num [InR4])
  apply foldl_inv (fun im => ∀ a b, InR4 (im a b)) _
    (fun im k h => setWhere_inv InR4 _ _ (by norm_num [InR4]) _
      (setWhere_inv InR4 _ _ (by norm_num [InR4]) im h))
  apply applyPerPixel_range InR4 _ columnShadeCoords
    (fun c hc s p hp => by
      have hb := mem_rangeL.mp (mem_coordsYX.mp hc).2
      exact columnShadeStep_range c hb.1 hb.2 s p hp)
  apply setWhere_inv InR4 _ _ (by norm_num [InR4])
  intro x y
  exact (by norm_num [InR4] : InR4 (⟨0, 0, 0, 0⟩ : Pix4))

theorem gen_tech_column_range (R : RNG) (s : R.State) :
    ∀ x y, InR4 (gen_tech_column R s x y) := by
  unfold gen_tech_column
  exact applyPerPixel_range InR4 _ _
    (fun c _ st p hp => spriteNoiseStep_range R 5 c st p hp)
    columnPreNoise (R.seed 333) columnPreNoise_range

theorem uniNoiseStep_range (R : RNG) (mag : ℤ) (c : ℕ × ℕ) (s : R.State)
    (p : Pix3) : InR3 ((uniNoiseStep R mag c s p).1) := by
  unfold uniNoiseStep
  exact ⟨(clamp255_range _).1, (clamp255_range _).2, (clamp255_range _).1,
    (clamp255_range _).2, (clamp255_range _).1, (clamp255_range _).2⟩

theorem stoneNoiseStep_range (R : RNG) (c : ℕ × ℕ) (s : R.State)
    (p : Pix3) : InR3 ((stoneNoiseStep R c s p).1) := by
  unfold stoneNoiseStep
  exact ⟨(clamp255_range _).1, (clamp255_range _).2, (clamp255_range _).1,
    (clamp255_range _).2, (clamp255_range _).1, (clamp255_range _).2⟩

theorem walkNoiseStep_range (R : RNG) (c : ℕ × ℕ) (s : R.State)
    (p : Pix3) : InR3 ((walkNoiseStep R c s p).1) := by
  unfold walkNoiseStep
  exact ⟨(clamp255_range _).1, (clamp255_range _).2, (clamp255_range _).1,
    (clamp255_range _).2, (clamp255_range _).1, (clamp255_range _).2⟩

theorem greenNoiseStep_range (R : RNG) (c : ℕ × ℕ) (s : R.State)
    (p : Pix3) : InR3 ((greenNoiseStep R c s p).1) := by
  unfold greenNoiseStep
  exact ⟨(clamp255_range _).1, (clamp255_range _).2, (clamp255_range _).1,
    (clamp255_range _).2, (clamp255_range _).1, (clamp255_range _).2⟩

theorem brickNoiseStep_range (R : RNG) (c : ℕ × ℕ) (s : R.State)
    (p : Pix3) (hp : InR3 p) : InR3 ((brickNoiseStep R c s p).1) := by
  unfold brickNoiseStep
  split
  · exact ⟨(clamp255_range _).1, (clamp255_range _).2, (clamp255_range _).1,
      (clamp255_range _).2, (clamp255_range _).1, (clamp255_range _).2⟩
  · exact hp

theorem tileNoiseStep_range (R : RNG) (c : ℕ × ℕ) (s : R.State)
    (p : Pix3) (hp : InR3 p) : InR3 ((tileNoiseStep R c s p).1) := by
  unfold tileNoiseStep
  split
  · exact ⟨(clamp255_range _).1, (clamp255_range _).2, (clamp255_range _).1,
      (clamp255_range _).2, (clamp255_range _).1, (clamp255_range _).2⟩
  · exact hp

theorem kerSum_fold_bounds (f : Pix3 → ℤ) (img : Img Pix3) (x y : ℕ)
    (hf : ∀ a b, 0 ≤ f (img a b) ∧ f (img a b) ≤ 255) :
    ∀ ker : List (ℤ × ℤ × ℤ), (∀ e ∈ ker, 0 ≤ e.2.2) →
    ∀ t : ℤ,
      t ≤ ker.foldl (fun acc e =>
          acc + e.2.2 * f (img ((x : ℤ) + e.1).toNat ((y : ℤ) + e.2.1).toNat)) t ∧
      ker.foldl (fun acc e =>
          acc + e.2.2 * f (img ((x : ℤ) + e.1).toNat ((y : ℤ) + e.2.1).toNat)) t ≤
        t + (ker.map (fun e => e.2.2)).sum * 255 := by
  intro ker
  induction ker with
  | nil =>
    intro _ t
    simp
  | cons e rest ih =>
    intro hker t
    have hw : 0 ≤ e.2.2 := hker e (List.mem_cons_self _ _)
    have hfe := hf ((x : ℤ) + e.1).toNat ((y : ℤ) + e.2.1).toNat
    have hstep1 : t ≤ t + e.2.2 * f (img ((x : ℤ) + e.1).toNat ((y : ℤ) + e.2.1).toNat) := by
      nlinarith [hfe.1, hfe.2]
    have hstep2 : t + e.2.2 * f (img ((x : ℤ) + e.1).toNat ((y : ℤ) + e.2.1).toNat) ≤
        t + e.2.2 * 255 := by
      nlinarith [hfe.1, hfe.2]
    obtain ⟨ih1, ih2⟩ := ih (fun d hd => hker d (List.mem_cons_of_mem _ hd))
      (t + e.2.2 * f (img ((x : ℤ) + e.1).toNat ((y : ℤ) + e.2.1).toNat))
    rw [List.foldl_cons]
    refine ⟨le_trans hstep1 ih1, le_trans ih2 ?_⟩
    rw [List.map_cons, List.sum_cons]
    nlinarith [hfe.1, hfe.2]

theorem kerSum_bounds (ker : List (ℤ × ℤ × ℤ)) (f : Pix3 → ℤ) (img : Img Pix3)
    (x y : ℕ) (hker : ∀ e ∈ ker, 0 ≤ e.2.2)
    (hf : ∀ a b, 0 ≤ f (img a b) ∧ f (img a b) ≤ 255) :
    0 ≤ kerSum ker f img x y ∧
      kerSum ker f img x y ≤ (ker.map (fun e => e.2.2)).sum * 255 := by
  have h := kerSum_fold_bounds f img x y hf ker hker 0
  unfold kerSum
  constructor
  · exact h.1
  · have := h.2
    omega

theorem blurWith_range (ker : List (ℤ × ℤ × ℤ)) (den : ℤ) (m : ℕ) (img : Img Pix3)
    (hden : 0 < den) (hker : ∀ e ∈ ker, 0 ≤ e.2.2)
    (hsum : (ker.map (fun e => e.2.2)).sum = den)
    (himg : ∀ x y, InR3 (img x y)) : ∀ x y, InR3 (blurWith ker den m img x y) := by
  intro x y
  unfold blurWith
  split
  · have hch : ∀ f : Pix3 → ℤ, (∀ a b, 0 ≤ f (img a b) ∧ f (img a b) ≤ 255) →
        0 ≤ (kerSum ker f img x y).fdiv den ∧ (kerSum ker f img x y).fdiv den ≤ 255 := by
      intro f hf
      obtain ⟨h0, h1⟩ := kerSum_bounds ker f img x y hker hf
      rw [hsum] at h1
      rw [Int.fdiv_eq_ediv _ (le_of_lt hden)]
      constructor
      · exact Int.ediv_nonneg h0 (le_of_lt hden)
      · have : kerSum ker f img x y / den < 256 := by
          rw [Int.ediv_lt_iff_lt_mul hden]
          nlinarith
        omega
    have hr := hch Pix3.r fun a b => ⟨(himg a b).1, (himg a b).2.1⟩
    have hg := hch Pix3.g fun a b => ⟨(himg a b).2.2.1, (himg a b).2.2.2.1⟩
    have hb := hch Pix3.b fun a b => ⟨(himg a b).2.2.2.2.1, (himg a b).2.2.2.2.2⟩
    exact ⟨hr.1, hr.2, hg.1, hg.2, hb.1, hb.2⟩
  · exact himg x y

theorem foldl_inv3 {β : Type} (f : Img Pix3 → β → Img Pix3)
    (h : ∀ im b, (∀ x y, InR3 (im x y)) → ∀ x y, InR3 (f im b x y)) :
    ∀ (l : List β) (init : Img Pix3), (∀ x y, InR3 (init x y)) →
      ∀ x y, InR3 (l.foldl f init x y) := by
  intro l
  induction l with
  | nil => exact fun _ h0 => h0
  | cons b t ih => exact fun init h0 => ih _ (h _ _ h0)

theorem brickMortarImg_range : ∀ x y, InR3 (brickMortarImg x y) := by
  unfold brickMortarImg
  apply foldl_inv3 _
    (fun im row h => by
      apply foldl_inv3 _
        (fun im2 k h2 => setWhere_inv InR3 _ _ (by norm_num [InR3, brickMortar]) im2 h2)
      exact setWhere_inv InR3 _ _ (by norm_num [InR3, brickMortar]) im h)
  intro x y
  exact (by norm_num [InR3] : InR3 (⟨120, 70, 40⟩ : Pix3))

theorem gen_brown_brick_range (R : RNG) (s : R.State) :
    ∀ x y, InR3 (gen_brown_brick R s x y) := by
  unfold gen_brown_brick
  exact applyPerPixel_range InR3 _ _
    (fun c _ st p hp => brickNoiseStep_range R c st p hp)
    brickMortarImg s brickMortarImg_range

theorem gridLines32_range (c : Pix3) (hc : InR3 c) (img : Img Pix3)
    (himg : ∀ x y, InR3 (img x y)) : ∀ x y, InR3 (gridLines32 c img x y) := by
  unfold gridLines32
  apply foldl_inv3 _
    (fun im i h => setWhere_inv InR3 _ _ hc _ (setWhere_inv InR3 _ _ hc im h))
  exact himg

theorem gen_brown_stone_floor_range (R : RNG) (s : R.State) :
    ∀ x y, InR3 (gen_brown_stone_floor R s x y) := by
  unfold gen_brown_stone_floor
  apply blurWith_range _ _ _ _ (by norm_num) (by decide) (by decide)
  apply gridLines32_range _ (by norm_num [InR3])
  apply applyPerPixel_range InR3 _ _
    (fun c _ st p _ => stoneNoiseStep_range R c st p)
  intro x y
  exact (by norm_num [InR3] : InR3 (⟨100, 65, 35⟩ : Pix3))

theorem crackWalk_range (R : RNG) (dxa dxb : ℤ) :
    ∀ (k : ℕ) (cx cy : ℤ) (img : Img Pix3) (s : R.State),
      (∀ x y, InR3 (img x y)) → ∀ x y, InR3 ((crackWalk R dxa dxb k cx cy img s).1 x y) := by
  intro k
  induction k with
  | zero => intro cx cy img s h; exact h
  | succ k ih =>
    intro cx cy img s h
    exact ih _ _ _ _ (setWhere_inv InR3 _ _ (by norm_num [InR3]) img h)

theorem gen_gray_concrete_range (R : RNG) (s : R.State) :
    ∀ x y, InR3 (gen_gray_concrete R s x y) := by
  unfold gen_gray_concrete
  apply blurWith_range _ _ _ _ (by norm_num) (by decide) (by decide)
  apply crackWalk_range
  apply crackWalk_range
  apply applyPerPixel_range InR3 _ _
    (fun c _ st p _ => uniNoiseStep_range R 15 c st p)
  intro x y
  exact (by norm_num [InR3] : InR3 (⟨110, 110, 105⟩ : Pix3))

theorem tileGrooveImg_range : ∀ x y, InR3 (tileGrooveImg x y) := by
  unfold tileGrooveImg
  apply foldl_inv3 _
    (fun im i h => setWhere_inv InR3 _ _ (by norm_num [InR3, tileGroove]) _
      (setWhere_inv InR3 _ _ (by norm_num [InR3, tileGroove]) im h))
  intro x y
  exact (by norm_num [InR3] : InR3 (⟨95, 100, 100⟩ : Pix3))

theorem gen_gray_tile_floor_range (R : RNG) (s : R.State) :
    ∀ x y, InR3 (gen_gray_tile_floor R s x y) := by
  unfold gen_gray_tile_floor
  exact applyPerPixel_range InR3 _ _
    (fun c _ st p hp => tileNoiseStep_range R c st p hp)
    tileGrooveImg s tileGrooveImg_range

theorem tealPlate_range : ∀ x y, InR3 (tealPlate x y) := by
  unfold tealPlate
  apply foldl_inv3 _
    (fun im ry h => by
      apply foldl_inv3 _
        (fun im2 rx h2 => setWhere_inv InR3 _ _ (by norm_num [InR3]) _
          (setWhere_inv InR3 _ _ (by norm_num [InR3]) im2 h2))
      exact h)
  apply foldl_inv3 _
    (fun im yv h => setWhere_inv InR3 _ _ (by norm_num [InR3]) _
      (setWhere_inv InR3 _ _ (by norm_num [InR3]) im h))
  intro x y
  exact (by norm_num [InR3] : InR3 (⟨35, 75, 65⟩ : Pix3))

theorem gen_dark_teal_metal_range (R : RNG) (s : R.State) :
    ∀ x y, InR3 (gen_dark_teal_metal R s x y) := by
  unfold gen_dark_teal_metal
  exact applyPerPixel_range InR3 _ _
    (fun c _ st p _ => uniNoiseStep_range R 6 c st p)
    tealPlate (R.seed 505) tealPlate_range

theorem walkDiamonds_range : ∀ x y, InR3 (walkDiamonds x y) := by
  unfold walkDiamonds
  apply foldl_inv3 _
    (fun im c h => setWhere_inv InR3 _ _ (by norm_num [InR3]) _
      (setWhere_inv InR3 _ _ (by norm_num [InR3]) im h))
  intro x y
  exact (by norm_num [InR3] : InR3 (⟨140, 115, 70⟩ : Pix3))

theorem gen_tan_walkway_range (R : RNG) (s : R.State) :
    ∀ x y, InR3 (gen_tan_walkway R s x y) := by
  unfold gen_tan_walkway
  exact applyPerPixel_range InR3 _ _
    (fun c _ st p _ => walkNoiseStep_range R c st p)
    walkDiamonds (R.seed 606) walkDiamonds_range

theorem bluePanelImg_range : ∀ x y, InR3 (bluePanelImg x y) := by
  unfold bluePanelImg
  apply foldl_inv3 _
    (fun im xv h => setWhere_inv InR3 _ _ (by norm_num [InR3]) im h)
  apply foldl_inv3 _
    (fun im yv h => by
      apply foldl_inv3 _
        (fun im2 xv h2 => by
          split
          · exact setWhere_inv InR3 _ _ (by norm_num [InR3]) im2 h2
          · exact h2)
      exact setWhere_inv InR3 _ _ (by norm_num [InR3]) im h)
  apply setWhere_inv InR3 _ _ (by norm_num [InR3])
  apply setWhere_inv InR3 _ _ (by norm_num [InR3])
  intro x y
  exact (by norm_num [InR3] : InR3 (⟨55, 60, 95⟩ : Pix3))

theorem gen_blue_tech_panel_range (R : RNG) (s : R.State) :
    ∀ x y, InR3 (gen_blue_tech_panel R s x y) := by
  unfold gen_blue_tech_panel
  exact applyPerPixel_range InR3 _ _
    (fun c _ st p _ => uniNoiseStep_range R 5 c st p)
    bluePanelImg (R.seed 707) bluePanelImg_range

theorem techFloorImg_range : ∀ x y, InR3 (techFloorImg x y) := by
  unfold techFloorImg
  apply foldl_inv3 _
    (fun im c h => setWhere_inv InR3 _ _ (by norm_num [InR3]) im h)
  apply foldl_inv3 _
    (fun im c h => setWhere_inv InR3 _ _ (by norm_num [InR3]) _
      (setWhere_inv InR3 _ _ (by norm_num [InR3]) im h))
  intro x y
  exact (by norm_num [InR3] : InR3 (⟨50, 48, 55⟩ : Pix3))

theorem gen_tech_floor_range (R : RNG) (s : R.State) :
    ∀ x y, InR3 (gen_tech_floor R s x y) := by
  unfold gen_tech_floor
  exact applyPerPixel_range InR3 _ _
    (fun c _ st p _ => uniNoiseStep_range R 4 c st p)
    techFloorImg (R.seed 808) techFloorImg_range

theorem gen_green_stone_range (R : RNG) (s : R.State) :
    ∀ x y, InR3 (gen_green_stone R s x y) := by
  unfold gen_green_stone
  apply blurWith_range _ _ _ _ (by norm_num) (by decide) (by decide)
  apply gridLines32_range _ (by norm_num [InR3])
  apply applyPerPixel_range InR3 _ _
    (fun c _ st p _ => greenNoiseStep_range R c st p)
  intro x y
  exact (by norm_num [InR3] : InR3 (⟨55, 80, 45⟩ : Pix3))

theorem ceilingImg_range : ∀ x y, InR3 (ceilingImg x y) := by
  unfold ceilingImg
  apply foldl_inv3 _
    (fun im c h => setWhere_inv InR3 _ _ (by norm_num [InR3]) im h)
  apply foldl_inv3 _
    (fun im i h => setWhere_inv InR3 _ _ (by norm_num [InR3]) _
      (setWhere_inv InR3 _ _ (by norm_num [InR3]) im h))
  intro x y
  exact (by norm_num [InR3] : InR3 (⟨65, 62, 58⟩ : Pix3))

theorem gen_ceiling_panel_range (R : RNG) (s : R.State) :
    ∀ x y, InR3 (gen_ceiling_panel R s x y) := by
  unfold gen_ceiling_panel
  exact applyPerPixel_range InR3 _ _
    (fun c _ st p _ => uniNoiseStep_range R 8 c st p)
    ceilingImg (R.seed 1010) ceilingImg_range

/-! Buffer lengths of the nukage pipeline. -/

theorem brownLayer_length (R : RNG) :
    ∀ (n : ℕ) (s : R.State) (b : ℚ), (brownLayer R s b n).length = n := by
  intro n
  induction n with
  | zero => intro s b; rfl
  | succ n ih =>
    intro s b
    show (brownLayer R _ _ n).length + 1 = n + 1
    rw [ih]

theorem fizzFrom_length (R : RNG) (qs : ℚ → ℚ) (qpi : ℚ) :
    ∀ (n : ℕ) (s : R.State) (i : ℕ), (fizzFrom R qs qpi s i n).length = n := by
  intro n
  induction n with
  | zero => intro s i; rfl
  | succ n ih =>
    intro s i
    show (fizzFrom R qs qpi _ _ n).length + 1 = n + 1
    rw [ih]

theorem applyPops_length (qs : ℚ → ℚ) (qpi : ℚ) (evs : List PopEvent) (l : List ℚ) :
    (applyPops qs qpi evs l).length = l.length := by
  unfold applyPops
  induction evs generalizing l with
  | nil => rfl
  | cons e t ih =>
    rw [List.foldl_cons, ih]
    simp

theorem nukMix_length (R : RNG) (qs : ℚ → ℚ) (qpi : ℚ) :
    (nukMix R qs qpi).length = nukN := by
  unfold nukMix
  rw [List.length_zipWith, applyPops_length, brownLayer_length, fizzFrom_length,
    min_self]

/-- C6: in gen_nukage_sizzle the crossfade writes, for every i < fade_len
(fade_len = int(0.05*22050) = 1102), out[i] = in[i]*f + in[N-fade_len+i]*
(1-f) with f = i/fade_len over the pre-crossfade buffer (the in-place loop
never reads an already-overwritten cell), the trailing fade window is then
removed, and the resulting buffer has exactly int(22050*3.0) - fade_len =
65048 samples. -/
theorem nukage_crossfade_spec (R : RNG) (qs : ℚ → ℚ) (qpi : ℚ) (l : List ℚ)
    (hl : l.length = nukN) (i : ℕ) (hi : i < nukFade) :
    nukagePre R qs qpi = crossfadeTrim nukN nukFade (nukMix R qs qpi) ∧
    nukFade = 1102 ∧
    nukN - nukFade = 65048 ∧
    (nukagePre R qs qpi).length = nukN - nukFade ∧
    (crossfadeTrim nukN nukFade l).length = nukN - nukFade ∧
    (crossfadeTrim nukN nukFade l).getD i 0 =
      l.getD i 0 * ((i : ℚ) / (nukFade : ℚ)) +
        l.getD (nukN - nukFade + i) 0 * (1 - (i : ℚ) / (nukFade : ℚ)) := by
  have hfn : nukFade ≤ nukN - nukFade := by
    rw [nukFade_eq, nukN_eq]
    norm_num
  obtain ⟨hlen, hform⟩ := crossfadeTrim_spec nukN nukFade hfn l hl
  refine ⟨rfl, nukFade_eq, by rw [nukFade_eq, nukN_eq], ?_, hlen, hform i hi⟩
  unfold nukagePre
  exact (crossfadeTrim_spec nukN nukFade hfn (nukMix R qs qpi)
    (nukMix_length R qs qpi)).1

/-- Witness for C6 at the concrete all-zero buffer of the right length and
index 0. -/
theorem nukage_crossfade_spec_witness :
    nukagePre rngPulse (fun _ => 0) 0 =
      crossfadeTrim nukN nukFade (nukMix rngPulse (fun _ => 0) 0) ∧
    nukFade = 1102 ∧
    nukN - nukFade = 65048 ∧
    (nukagePre rngPulse (fun _ => 0) 0).length = nukN - nukFade ∧
    (crossfadeTrim nukN nukFade (List.replicate nukN 0)).length = nukN - nukFade ∧
    (crossfadeTrim nukN nukFade (List.replicate nukN 0)).getD 0 0 =
      (List.replicate nukN (0 : ℚ)).getD 0 0 * ((0 : ℚ) / (nukFade : ℚ)) +
        (List.replicate nukN (0 : ℚ)).getD (nukN - nukFade + 0) 0 *
          (1 - (0 : ℚ) / (nukFade : ℚ)) :=
  nukage_crossfade_spec rngPulse (fun _ => 0) 0 (List.replicate nukN 0)
    (List.length_replicate _ _) 0 (by rw [nukFade_eq]; norm_num)

/-! Normalization facts shared by C7 and C10. -/

theorem normalizeTo_peak_cases (t : ℚ) (ht : 0 ≤ t) (l : List ℚ) :
    listPeak (normalizeTo t l) = if 0 < listPeak l then t else 0 := by
  rw [normalizeTo_listPeak t ht l]
  split
  · rfl
  · rename_i h
    exact le_antisymm (not_lt.mp h) (listPeak_nonneg l)

/-- C7: under exact arithmetic, for both audio generators, if the
pre-normalization peak is positive the peak after normalization equals the
declared target exactly (0.7 for gen_nukage_sizzle, 0.6 for
gen_computer_hum), and if the peak is 0 the buffer is passed through
unchanged.  Both cases are stated as one if-then-else equation on the
actual generator pipelines. -/
theorem audio_normalization_exact (R : RNG) (qs : ℚ → ℚ) (qpi : ℚ) (s : R.State) :
    (listPeak (gen_nukage_sizzle R qs qpi s) =
      if 0 < listPeak (nukagePre R qs qpi) then 7/10 else 0) ∧
    (gen_nukage_sizzle R qs qpi s =
      if 0 < listPeak (nukagePre R qs qpi) then
        (nukagePre R qs qpi).map
          (fun v => v / listPeak (nukagePre R qs qpi) * (7/10))
      else nukagePre R qs qpi) ∧
    (listPeak (gen_computer_hum R qs qpi s) =
      if 0 < listPeak (humPre R qs qpi s) then 3/5 else 0) ∧
    (gen_computer_hum R qs qpi s =
      if 0 < listPeak (humPre R qs qpi s) then
        (humPre R qs qpi s).map
          (fun v => v / listPeak (humPre R qs qpi s) * (3/5))
      else humPre R qs qpi s) :=
  ⟨normalizeTo_peak_cases (7/10) (by norm_num) _, rfl,
    normalizeTo_peak_cases (3/5) (by norm_num) _, rfl⟩

/-- C10: every sample of the buffers the two audio generators pass to
write_wav already lies in [-1, 1] — the post-normalization peak is at most
the target (0.7 resp. 0.6) and an all-zero buffer passes through unchanged
— so the clamp max(-1, min(1, s)) inside write_wav maps every sample to
itself for these two calls. -/
theorem audio_clamp_noop (R : RNG) (qs : ℚ → ℚ) (qpi : ℚ) (s : R.State) :
    listPeak (gen_nukage_sizzle R qs qpi s) ≤ 7/10 ∧
    listPeak (gen_computer_hum R qs qpi s) ≤ 3/5 ∧
    (gen_nukage_sizzle R qs qpi s).map clamp1 = gen_nukage_sizzle R qs qpi s ∧
    (gen_computer_hum R qs qpi s).map clamp1 = gen_computer_hum R qs qpi s := by
  have h1 : listPeak (gen_nukage_sizzle R qs qpi s) ≤ 7/10 := by
    have := normalizeTo_peak_cases (7/10) (by norm_num) (nukagePre R qs qpi)
    unfold gen_nukage_sizzle
    rw [this]
    split <;> norm_num
  have h2 : listPeak (gen_computer_hum R qs qpi s) ≤ 3/5 := by
    have := normalizeTo_peak_cases (3/5) (by norm_num) (humPre R qs qpi s)
    unfold gen_computer_hum
    rw [this]
    split <;> norm_num
  exact ⟨h1, h2, listPeak_le_one_clamp _ (le_trans h1 (by norm_num)),
    listPeak_le_one_clamp _ (le_trans h2 (by norm_num))⟩

/-- C8: write_wav clamps every sample into [-1, 1] before quantization, so
every quantized integer it writes lies in [-32767, 32767] (for any input
list); and every pixel-channel update of the sprite and texture generators
clamps to [0, 255], so every channel of every pixel of every generated
image lies in [0, 255] (for any RNG model and ambient state). -/
theorem output_value_ranges (l : List ℚ) (v : ℤ) (hv : v ∈ write_wav l)
    (R : RNG) (s : R.State) (x y : ℕ) :
    (-32767 ≤ v ∧ v ≤ 32767) ∧
    InR4 (gen_barrel R s x y) ∧
    InR4 (gen_computer_panel R s x y) ∧
    InR4 (gen_tech_column R s x y) ∧
    InR3 (gen_brown_brick R s x y) ∧
    InR3 (gen_brown_stone_floor R s x y) ∧
    InR3 (gen_gray_concrete R s x y) ∧
    InR3 (gen_gray_tile_floor R s x y) ∧
    InR3 (gen_dark_teal_metal R s x y) ∧
    InR3 (gen_tan_walkway R s x y) ∧
    InR3 (gen_blue_tech_panel R s x y) ∧
    InR3 (gen_tech_floor R s x y) ∧
    InR3 (gen_green_stone R s x y) ∧
    InR3 (gen_ceiling_panel R s x y) := by
  refine ⟨?_, gen_barrel_range R s x y, gen_computer_panel_range R s x y,
    gen_tech_column_range R s x y, gen_brown_brick_range R s x y,
    gen_brown_stone_floor_range R s x y, gen_gray_concrete_range R s x y,
    gen_gray_tile_floor_range R s x y, gen_dark_teal_metal_range R s x y,
    gen_tan_walkway_range R s x y, gen_blue_tech_panel_range R s x y,
    gen_tech_floor_range R s x y, gen_green_stone_range R s x y,
    gen_ceiling_panel_range R s x y⟩
  obtain ⟨u, _, rfl⟩ := List.mem_map.mp hv
  obtain ⟨hc1, hc2⟩ := clamp1_bounds u
  have h1 : -((32767 : ℤ) : ℚ) ≤ clamp1 u * 32767 := by push_cast; nlinarith
  have h2 : clamp1 u * 32767 ≤ ((32767 : ℤ) : ℚ) := by push_cast; nlinarith
  exact pyInt_bounds h1 h2

/-- Witness for C8 at the concrete buffer [2] (whose only sample clamps to
1 and quantizes to 32767) and the pixel (0,0) of each generator under the
concrete RNG rngPulse. -/
theorem output_value_ranges_witness :
    ((-32767 : ℤ) ≤ 32767 ∧ (32767 : ℤ) ≤ 32767) ∧
    InR4 (gen_barrel rngPulse (rngPulse.seed 0) 0 0) ∧
    InR4 (gen_computer_panel rngPulse (rngPulse.seed 0) 0 0) ∧
    InR4 (gen_tech_column rngPulse (rngPulse.seed 0) 0 0) ∧
    InR3 (gen_brown_brick rngPulse (rngPulse.seed 0) 0 0) ∧
    InR3 (gen_brown_stone_floor rngPulse (rngPulse.seed 0) 0 0) ∧
    InR3 (gen_gray_concrete rngPulse (rngPulse.seed 0) 0 0) ∧
    InR3 (gen_gray_tile_floor rngPulse (rngPulse.seed 0) 0 0) ∧
    InR3 (gen_dark_teal_metal rngPulse (rngPulse.seed 0) 0 0) ∧
    InR3 (gen_tan_walkway rngPulse (rngPulse.seed 0) 0 0) ∧
    InR3 (gen_blue_tech_panel rngPulse (rngPulse.seed 0) 0 0) ∧
    InR3 (gen_tech_floor rngPulse (rngPulse.seed 0) 0 0) ∧
    InR3 (gen_green_stone rngPulse (rngPulse.seed 0) 0 0) ∧
    InR3 (gen_ceiling_panel rngPulse (rngPulse.seed 0) 0 0) :=
  output_value_ranges [2] 32767
    (by
      have : write_wav [2] = [32767] := by
        unfold write_wav clamp1 pyInt
        norm_num
      rw [this]
      exact List.mem_singleton.mpr rfl)
    rngPulse (rngPulse.seed 0) 0 0

/-- The concrete RNG rngPulse satisfies the documented range contract. -/
theorem rngPulse_WF : rngPulse.WF :=
  ⟨fun _ a _ h => ⟨le_refl a, h⟩, fun _ a _ h => ⟨le_refl a, h⟩⟩

/-- C9: with seed 111 fixed (and for any range-contract-respecting RNG
model), the pixel of gen_barrel at the sprite's geometric centre — the
code's (mid_x, mid_y) = (15, 25), the centre of the barrel body on which
the glow is centred — has each colour channel within 8 of the inner
toxic-glow colour (80, 200, 50) and alpha 255. -/
theorem gen_barrel_center_glow (R : RNG) (hWF : R.WF) (s : R.State) :
    |(gen_barrel R s 15 25).r - 80| ≤ 8 ∧
    |(gen_barrel R s 15 25).g - 200| ≤ 8 ∧
    |(gen_barrel R s 15 25).b - 50| ≤ 8 ∧
    (gen_barrel R s 15 25).a = 255 := by
  have hmem : ((15 : ℕ), (25 : ℕ)) ∈ coordsYX (List.range 48) (List.range 32) :=
    mem_coordsYX.mpr ⟨List.mem_range.mpr (by norm_num), List.mem_range.mpr (by norm_num)⟩
  have hnd : (coordsYX (List.range 48) (List.range 32)).Nodup :=
    coordsYX_nodup _ _ (List.nodup_range _) (List.nodup_range _)
  obtain ⟨s', hs⟩ := applyPerPixel_get (spriteNoiseStep R 8) _ barrelPreNoise
    (R.seed 111) hmem hnd
  have hgen : gen_barrel R s 15 25 =
      (spriteNoiseStep R 8 (15, 25) s' (barrelPreNoise 15 25)).1 := hs
  have hpre : barrelPreNoise 15 25 = ⟨80, 200, 50, 255⟩ := by decide
  rw [hgen, hpre]
  obtain ⟨hd1, hd2⟩ := hWF.1 s' (-8) 8 (by norm_num)
  unfold spriteNoiseStep
  rw [if_pos (by norm_num : (0 : ℤ) < (⟨80, 200, 50, 255⟩ : Pix4).a)]
  refine ⟨?_, ?_, ?_, rfl⟩ <;>
    · rw [abs_le]
      constructor <;> simp only [] <;> omega

/-- Witness for C9: the range contract holds for the concrete RNG
rngPulse, and the centre-pixel bounds follow at it. -/
theorem gen_barrel_center_glow_witness :
    |(gen_barrel rngPulse (rngPulse.seed 0) 15 25).r - 80| ≤ 8 ∧
    |(gen_barrel rngPulse (rngPulse.seed 0) 15 25).g - 200| ≤ 8 ∧
    |(gen_barrel rngPulse (rngPulse.seed 0) 15 25).b - 50| ≤ 8 ∧
    (gen_barrel rngPulse (rngPulse.seed 0) 15 25).a = 255 :=
  gen_barrel_center_glow rngPulse rngPulse_WF (rngPulse.seed 0)
